import Mathlib

/-!
Verification development for the CeCe course-analysis pipeline
(`analyze.py`).  The Python functions are shallowly embedded as
executable Lean definitions over `List Char` / `String`; regular
expressions used by the source are embedded as hand-written scanners
with the same matching semantics, and Python dictionaries / sets are
embedded as association lists / lists used only through membership and
lookup.
-/

namespace CeCe

/- ────────────────────────────────────────────────────────────
   Character classes (ASCII fragment of Python `\s`, `\w`, `str.isdigit`)
   ──────────────────────────────────────────────────────────── -/

/-- Python whitespace (`\s`, `str.strip`, `str.split`), ASCII fragment. -/
def isPySpace (c : Char) : Bool :=
  c == ' ' || c == '\t' || c == '\n' || c == '\r' || c == '\x0b' || c == '\x0c'

/-- Python regex word character `\w`, ASCII fragment. -/
def isWordChar (c : Char) : Bool :=
  c.isAlphanum || c == '_'

/-- ASCII lowercase letter, the class `[a-z]`. -/
def isLowerAZ (c : Char) : Bool :=
  'a' ≤ c && c ≤ 'z'

/- ────────────────────────────────────────────────────────────
   Basic list-of-chars utilities
   ──────────────────────────────────────────────────────────── -/

/-- `isPre pat l` tests whether `pat` is a prefix of `l`. -/
def isPre : List Char → List Char → Bool
  | [], _ => true
  | _ :: _, [] => false
  | a :: as, b :: bs => a == b && isPre as bs

/-- Substring containment (Python `needle in hay`). -/
def containsSub (needle : List Char) : List Char → Bool
  | [] => isPre needle []
  | c :: rest => isPre needle (c :: rest) || containsSub needle rest

/-- Python `str.startswith`. -/
def pyStartsWith (pre s : String) : Bool := isPre pre.data s.data

/-- Python `str.endswith`. -/
def pyEndsWith (suf s : String) : Bool := isPre suf.data.reverse s.data.reverse

/-- Python `needle in hay` on strings. -/
def pyContains (needle s : String) : Bool := containsSub needle.data s.data

/-- Remove trailing Python whitespace. -/
def dropTrailingWs : List Char → List Char
  | [] => []
  | c :: rest =>
    match dropTrailingWs rest with
    | [] => if isPySpace c then [] else [c]
    | d :: r => c :: d :: r

/-- Python `str.strip()` on a char list. -/
def pyStrip (l : List Char) : List Char := dropTrailingWs (l.dropWhile isPySpace)

/-- Python `str.strip()`. -/
def pyStripS (s : String) : String := String.mk (pyStrip s.data)

/-- Python `str.lower()`, ASCII fragment. -/
def lowerS (s : String) : String := String.mk (s.data.map Char.toLower)

/-- One step of the `re.sub(r'\s+', ' ', ·)` scanner: the flag records
whether the previous character belonged to a whitespace run. -/
def collapseAux : Bool → List Char → List Char
  | _, [] => []
  | prevSp, c :: rest =>
    if isPySpace c then
      if prevSp then collapseAux true rest else ' ' :: collapseAux true rest
    else c :: collapseAux false rest

/-- `re.sub(r'\s+', ' ', ·)`: every maximal whitespace run becomes one space. -/
def collapseWs (l : List Char) : List Char := collapseAux false l

/-- Accumulating scanner for Python `str.split()` (split on whitespace runs,
dropping empty fields).  `acc` holds the current word reversed. -/
def splitWsAux : List Char → List Char → List (List Char)
  | acc, [] => match acc with | [] => [] | _ :: _ => [acc.reverse]
  | acc, c :: rest =>
    if isPySpace c then
      match acc with
      | [] => splitWsAux [] rest
      | _ :: _ => acc.reverse :: splitWsAux [] rest
    else splitWsAux (c :: acc) rest

/-- Python `str.split()` with no argument. -/
def splitWs (l : List Char) : List (List Char) := splitWsAux [] l

/-- Python `str.capitalize()`: first char uppercased, the rest lowercased. -/
def capitalizeWord : List Char → List Char
  | [] => []
  | c :: rest => c.toUpper :: rest.map Char.toLower

/-- Scanner for Python `str.replace(pat, rep)`: state `n+1` means `n+1`
characters of a just-matched occurrence remain to be skipped.
(`pat` is never empty in this development.) -/
def raAux (pat rep : List Char) : Nat → List Char → List Char
  | _, [] => []
  | n + 1, _ :: rest => raAux pat rep n rest
  | 0, c :: rest =>
    if isPre pat (c :: rest) then rep ++ raAux pat rep (pat.length - 1) rest
    else c :: raAux pat rep 0 rest

/-- Python `str.replace(pat, rep)`: all non-overlapping occurrences,
scanned left to right. -/
def replaceAll (pat rep l : List Char) : List Char := raAux pat rep 0 l

/-- Python `str.replace` on strings. -/
def pyReplaceS (s pat rep : String) : String :=
  String.mk (replaceAll pat.data rep.data s.data)

/- ────────────────────────────────────────────────────────────
   strip_html  (analyze.py, lines 74-81)
   ──────────────────────────────────────────────────────────── -/

/-- Index of the first `'>'`. -/
def idxOfGt : List Char → Option Nat
  | [] => none
  | c :: rest => if c == '>' then some 0 else (idxOfGt rest).map (· + 1)

/-- Length of the `<(script|style)[^>]*` opener prefix (`7` or `6`). -/
def openLen (l : List Char) : Option Nat :=
  if isPre "<script".data l then some 7
  else if isPre "<style".data l then some 6
  else none

/-- Number of characters up to and including the earliest `</script>` or
`</style>` (the lazy `.*?</(script|style)>` part of the removal regex). -/
def closeIdx : List Char → Option Nat
  | [] => none
  | c :: rest =>
    if isPre "</script>".data (c :: rest) then some 9
    else if isPre "</style>".data (c :: rest) then some 8
    else (closeIdx rest).map (· + 1)

/-- Length of a match of `<(script|style)[^>]*>.*?</(script|style)>`
(with `re.DOTALL`) starting at the head of `l`, if any. -/
def matchSSLen (l : List Char) : Option Nat :=
  match openLen l with
  | none => none
  | some k =>
    match idxOfGt (l.drop k) with
    | none => none
    | some g =>
      match closeIdx (l.drop (k + g + 1)) with
      | none => none
      | some c => some (k + g + 1 + c)

/-- Scanner for `re.sub(r'<(script|style)[^>]*>.*?</(script|style)>', '', ·)`:
state `n+1` means `n+1` matched characters remain to be deleted. -/
def rssAux : Nat → List Char → List Char
  | _, [] => []
  | n + 1, _ :: rest => rssAux n rest
  | 0, c :: rest =>
    match matchSSLen (c :: rest) with
    | some k => rssAux (k - 1) rest
    | none => c :: rssAux 0 rest

/-- First `re.sub` of `strip_html`: delete script/style blocks. -/
def removeScriptStyle (l : List Char) : List Char := rssAux 0 l

/-- Length of a match of `<[^>]+>` starting at the head of `l`, if any. -/
def tagLen (l : List Char) : Option Nat :=
  match l with
  | c :: rest =>
    if c == '<' then
      match idxOfGt rest with
      | some g => if 1 ≤ g then some (g + 2) else none
      | none => none
    else none
  | [] => none

/-- Scanner for `re.sub(r'<[^>]+>', ' ', ·)`. -/
def rtAux : Nat → List Char → List Char
  | _, [] => []
  | n + 1, _ :: rest => rtAux n rest
  | 0, c :: rest =>
    match tagLen (c :: rest) with
    | some k => ' ' :: rtAux (k - 1) rest
    | none => c :: rtAux 0 rest

/-- Second `re.sub` of `strip_html`: every tag becomes one space. -/
def replaceTags (l : List Char) : List Char := rtAux 0 l

/-- The six entity replacements of `strip_html`, in source order. -/
def entityList : List (String × String) :=
  [("&nbsp;", " "), ("&amp;", "&"), ("&lt;", "<"),
   ("&gt;", ">"), ("&quot;", "\""), ("&#39;", "\x27")]

/-- Sequential `str.replace` of the six entities. -/
def decodeEntities (l : List Char) : List Char :=
  entityList.foldl (fun acc p => replaceAll p.1.data p.2.data acc) l

/-- `strip_html` (analyze.py:74-81): remove script/style blocks, replace
tags by spaces, decode the six entities, collapse whitespace, strip. -/
def strip_html (s : String) : String :=
  String.mk (pyStrip (collapseWs (decodeEntities (replaceTags (removeScriptStyle s.data)))))

/- ────────────────────────────────────────────────────────────
   Small predicates and formatters (analyze.py, lines 84-117)
   ──────────────────────────────────────────────────────────── -/

/-- `MEDIA_KEYWORDS` (analyze.py:24-36). -/
def MEDIA_KEYWORDS : List String :=
  ["video-", "podcast-", "webpage-", "netflix-", "movie-",
   "trigger-warning", "youtube", "playposit", "voicethread",
   "zoom-", "canvas-student", "canvas-overview", "recommended-browsers",
   "technical-", "chrome-", "navigate-canvas", "honorlock",
   "respondus", "turnitin", "how-to-", "update-your", "global-navigation",
   "accessibility-", "fiu-resources", "note-for-support",
   "faculty-guided", "proctored", "sample-rubric", "spot-survey",
   "working-in-teams", "getting-started-with-group", "embedding-",
   "directions-on-submitting", "how-do-i-", "student-guide",
   "canvas-student-guide", "submitting-an-assignment", "submitting-a-",
   "recording-a-", "uploading-a-", "downloading-", "installing-"]

/-- `is_media_page` (analyze.py:84-85). -/
def is_media_page (page_name : String) : Bool :=
  MEDIA_KEYWORDS.any (fun k => pyContains k (lowerS page_name))

/-- `is_published_state` (analyze.py:111-117): the lowercased, stripped
workflow state is `active`, `published`, or empty. -/
def is_published_state (workflow_state : String) : Bool :=
  let w := pyStripS (lowerS workflow_state)
  w == "active" || w == "published" || w == ""

/-- `clean_assignment_name` (analyze.py:96-98).  `folder_id` is unused,
exactly as in the source. -/
def clean_assignment_name (_folder_id file_name : String) : String :=
  let name := pyReplaceS (pyReplaceS (pyReplaceS file_name ".html" "") "-|-" " | ") "-" " "
  String.intercalate " " ((splitWs name.data).map (fun w => String.mk (capitalizeWord w)))

/-- Zero-pad a natural to two digits. -/
def pad2 (n : Nat) : String := if n < 10 then "0" ++ toString n else toString n

/-- Zero-pad a natural to four digits (strftime `%Y` on Linux). -/
def pad4 (n : Nat) : String :=
  if n < 10 then "000" ++ toString n
  else if n < 100 then "00" ++ toString n
  else if n < 1000 then "0" ++ toString n
  else toString n

/-- Gregorian leap-year rule (the calendar validation done by
`datetime.strptime`). -/
def isLeapYear (y : Nat) : Bool := y % 4 == 0 && (y % 100 != 0 || y % 400 == 0)

/-- Days in a month of the proleptic Gregorian calendar. -/
def daysInMonth (y m : Nat) : Nat :=
  if m == 2 then (if isLeapYear y then 29 else 28)
  else if m == 4 || m == 6 || m == 9 || m == 11 then 30
  else 31

/-- Digit value of an ASCII digit. -/
def digitVal (c : Char) : Nat := c.toNat - 48

/-- Parse the first 19 characters as `%Y-%m-%dT%H:%M:%S`
(fixed-width form; Python strptime also tolerates unpadded fields,
which Canvas export dates never use) and validate the calendar ranges
checked by `datetime`. -/
def parseIso19 (l : List Char) : Option (Nat × Nat × Nat × Nat × Nat × Nat) :=
  match l with
  | [y1, y2, y3, y4, s1, m1, m2, s2, d1, d2, t, h1, h2, s3, n1, n2, s4, c1, c2] =>
    if [y1, y2, y3, y4, m1, m2, d1, d2, h1, h2, n1, n2, c1, c2].all Char.isDigit
        && s1 == '-' && s2 == '-' && t == 'T' && s3 == ':' && s4 == ':' then
      let y := 1000 * digitVal y1 + 100 * digitVal y2 + 10 * digitVal y3 + digitVal y4
      let mo := 10 * digitVal m1 + digitVal m2
      let d := 10 * digitVal d1 + digitVal d2
      let h := 10 * digitVal h1 + digitVal h2
      let mi := 10 * digitVal n1 + digitVal n2
      let se := 10 * digitVal c1 + digitVal c2
      if 1 ≤ y && 1 ≤ mo && mo ≤ 12 && 1 ≤ d && d ≤ daysInMonth y mo
          && h ≤ 23 && mi ≤ 59 && se ≤ 59 then
        some (y, mo, d, h, mi, se)
      else none
    else none
  | _ => none

/-- `format_due_date` (analyze.py:101-108): reformat
`%Y-%m-%dT%H:%M:%S` (first 19 chars) as `%m/%d/%Y %I:%M %p`, falling
back to the input on a parse failure, and to `"Not set"` on empty input. -/
def format_due_date (iso_string : String) : String :=
  if iso_string == "" then "Not set"
  else
    match parseIso19 (iso_string.data.take 19) with
    | some (y, mo, d, h, mi, _) =>
      let h12 := if h % 12 == 0 then 12 else h % 12
      let ampm := if h < 12 then "AM" else "PM"
      pad2 mo ++ "/" ++ pad2 d ++ "/" ++ pad4 y ++ " " ++ pad2 h12 ++ ":" ++ pad2 mi ++ " " ++ ampm
    | none => iso_string

/- ────────────────────────────────────────────────────────────
   XML helpers: the tag / attribute / split regexes of analyze.py
   ──────────────────────────────────────────────────────────── -/

/-- Chars before the earliest occurrence of `closeP` (none if absent). -/
def scanClose (closeP : List Char) : List Char → Option (List Char)
  | [] => none
  | c :: rest =>
    if isPre closeP (c :: rest) then some []
    else (scanClose closeP rest).map (c :: ·)

/-- Scanner for `re.search(r'<tag>(.+?)</tag>', ·, re.DOTALL)`: at each
position try the literal opener, then lazily (earliest close, at least
one content char) capture up to the closer; otherwise keep scanning. -/
def findTagAux (openP closeP : List Char) : List Char → Option (List Char)
  | [] => none
  | c :: rest =>
    if isPre openP (c :: rest) then
      match (match (c :: rest).drop openP.length with
             | [] => none
             | d :: r2 => (scanClose closeP r2).map (d :: ·)) with
      | some content => some content
      | none => findTagAux openP closeP rest
    else findTagAux openP closeP rest

/-- `re.search(r'<tag>(.+?)</tag>', ·, re.DOTALL)`, group 1. -/
def findTag (tag : String) (l : List Char) : Option (List Char) :=
  findTagAux ("<" ++ tag ++ ">").data ("</" ++ tag ++ ">").data l

/-- `findTag` on strings. -/
def findTagS (tag s : String) : Option String := (findTag tag s.data).map String.mk

/-- Match length of `TAGWORD\s+identifier=[^>]+>` at the head of `l`
(`tagWord` includes the `<`, e.g. `"<item"`). -/
def patIdLen (tagWord : List Char) (l : List Char) : Option Nat :=
  if isPre tagWord l then
    let r1 := l.drop tagWord.length
    let w := (r1.takeWhile isPySpace).length
    if w == 0 then none
    else
      let r2 := r1.drop w
      if isPre "identifier=".data r2 then
        match idxOfGt (r2.drop 11) with
        | some g => if 1 ≤ g then some (tagWord.length + w + 11 + g + 1) else none
        | none => none
      else none
  else none

/-- Scanner for `re.split(pat, ·)`: emits the segments between
non-overlapping matches; state `n+1` skips the rest of a match. -/
def splitAux (patLen : List Char → Option Nat) : Nat → List Char → List Char → List (List Char)
  | _, acc, [] => [acc.reverse]
  | n + 1, acc, _ :: rest => splitAux patLen n acc rest
  | 0, acc, c :: rest =>
    match patLen (c :: rest) with
    | some k => acc.reverse :: splitAux patLen (k - 1) [] rest
    | none => splitAux patLen 0 (c :: acc) rest

/-- `re.split(pat, s)[1:]`. -/
def splitOnPat (patLen : List Char → Option Nat) (l : List Char) : List (List Char) :=
  (splitAux patLen 0 [] l).drop 1

/-- Quote characters of the attribute regex class `["\']`. -/
def isQuote (c : Char) : Bool := c == '"' || c == '\x27'

/-- After `NAME=`: a quote, at least one non-quote char, then a quote
(the `["\']([^"\']+)["\']` part of the attribute regexes). -/
def attrValAt (l : List Char) : Option (List Char) :=
  match l with
  | q :: rest =>
    if isQuote q then
      let v := rest.takeWhile (fun c => !isQuote c)
      if v.length == 0 then none
      else if (rest.drop v.length).isEmpty then none
      else some v
    else none
  | [] => none

/-- `re.search(r'NAME=["\']([^"\']+)["\']', ·)`, group 1
(`name` is the literal including `=`, e.g. `"identifier="`). -/
def findAttrVal (name : List Char) : List Char → Option (List Char)
  | [] => none
  | c :: rest =>
    if isPre name (c :: rest) then
      match attrValAt ((c :: rest).drop name.length) with
      | some v => some v
      | none => findAttrVal name rest
    else findAttrVal name rest

/- ────────────────────────────────────────────────────────────
   build_published_file_set (analyze.py, lines 124-162)
   ──────────────────────────────────────────────────────────── -/

/-- Python dict lookup on an insertion-ordered association list
(keys are unique by construction, so the first hit is the value). -/
def pyLookup {α : Type} (k : String) : List (String × α) → Option α
  | [] => none
  | p :: rest => if p.1 == k then some p.2 else pyLookup k rest

/-- Python dict assignment `m[k] = v` on an insertion-ordered
association list: update in place if the key exists, else append. -/
def dictInsert {α : Type} (m : List (String × α)) (k : String) (v : α) : List (String × α) :=
  if (pyLookup k m).isSome then m.map (fun p => if p.1 == k then (k, v) else p)
  else m ++ [(k, v)]

/-- One item block of `module_meta`: its stripped `identifierref` and
workflow state (default `"active"` when the state tag is absent);
blocks without an `identifierref` yield nothing. -/
def itemStateOfBlock (block : List Char) : Option (String × String) :=
  match findTag "identifierref" block with
  | none => none
  | some refC =>
    let ref := String.mk (pyStrip refC)
    let state :=
      match findTag "workflow_state" block with
      | some s => String.mk (pyStrip s)
      | none => "active"
    some (ref, state)

/-- The `(identifierref, workflow_state)` pairs of the item blocks of
`module_meta`, in document order (step 1 of the resolver, before the
merge). -/
def itemEntries (module_meta : List Char) : List (String × String) :=
  (splitOnPat (patIdLen "<item".data) module_meta).filterMap itemStateOfBlock

/-- The resolver's merge step: record the state unless the id is already
present with the new state unpublished (`if ref not in item_states or
is_published_state(state)` in the source). -/
def insertItemState (m : List (String × String)) (e : String × String) : List (String × String) :=
  if (pyLookup e.1 m).isNone || is_published_state e.2 then dictInsert m e.1 e.2 else m

/-- Step 1 of `build_published_file_set`: the `item_states` dict. -/
def itemStatesOf (module_meta : List Char) : List (String × String) :=
  (itemEntries module_meta).foldl insertItemState []

/-- Match length of `<resource\s` at the head of `l`. -/
def resourcePatLen (l : List Char) : Option Nat :=
  if isPre "<resource".data l then
    match l.drop 9 with
    | c :: _ => if isPySpace c then some 10 else none
    | [] => none
  else none

/-- One manifest resource block: its `identifier` and `href` attributes. -/
def resourceEntryOf (block : List Char) : Option (String × String) :=
  match findAttrVal "identifier=".data block, findAttrVal "href=".data block with
  | some i, some h => some (String.mk i, String.mk h)
  | _, _ => none

/-- Step 2 of `build_published_file_set`: the `id_to_href` dict. -/
def idToHrefOf (manifest : List Char) : List (String × String) :=
  (splitOnPat resourcePatLen manifest).foldl
    (fun m block =>
      match resourceEntryOf block with
      | some e => dictInsert m e.1 e.2
      | none => m) []

/-- Step 3 of `build_published_file_set`: the `published_hrefs` set
(a Python set used only through membership; embedded as the list of
added elements). -/
def publishedHrefsOf (item_states id_to_href : List (String × String)) : List String :=
  item_states.foldl
    (fun acc e =>
      if is_published_state e.2 then
        match pyLookup e.1 id_to_href with
        | some href => acc ++ [href]
        | none => acc
      else acc) []

/-- `build_published_file_set` (analyze.py:124-162): returns
`(published_hrefs, item_states, id_to_href)`. -/
def build_published_file_set (module_meta manifest : String) :
    List String × List (String × String) × List (String × String) :=
  let item_states := itemStatesOf module_meta.data
  let id_to_href := idToHrefOf manifest.data
  (publishedHrefsOf item_states id_to_href, item_states, id_to_href)

/- ────────────────────────────────────────────────────────────
   read_imscc (analyze.py, lines 169-386)

   The zip archive is embedded as its member list plus a read
   function; `read p = none` embeds `z.read(p)` raising an exception
   (`decode(errors='ignore')` itself never fails).
   ──────────────────────────────────────────────────────────── -/

/-- Python `str.split(sep)` for a one-character separator
(keeps empty fields). -/
def splitOnCharAux (sep : Char) : List Char → List Char → List (List Char)
  | acc, [] => [acc.reverse]
  | acc, c :: rest =>
    if c == sep then acc.reverse :: splitOnCharAux sep [] rest
    else splitOnCharAux sep (c :: acc) rest

/-- Python `str.split(sep)`. -/
def splitOnChar (sep : Char) (l : List Char) : List (List Char) := splitOnCharAux sep [] l

/-- State of the wiki-page loop (analyze.py:232-269). -/
structure WikiState where
  wiki_full : List (String × String)
  wiki_titles : List String
  wiki_unpublished : List String
  wiki_pub : Nat
  wiki_unpub : Nat
deriving Repr, DecidableEq

/-- The wiki-file filter of analyze.py:232-233. -/
def isWikiFile (f : String) : Bool :=
  pyStartsWith "wiki_content/" f && pyEndsWith ".html" f

/-- `page_path.replace('wiki_content/', '').replace('.html', '')`. -/
def wikiNameOf (page_path : String) : String :=
  pyReplaceS (pyReplaceS page_path "wiki_content/" "") ".html" ""

/-- The publish decision of analyze.py:245-251: published when the path
is in the published set, or — fallback — when `item_states` is empty. -/
def wikiPublishedDecision (published_hrefs : List String)
    (item_states : List (String × String)) (page_path : String) : Bool :=
  if published_hrefs.contains page_path then true
  else if item_states.isEmpty then true
  else false

/-- One iteration of the wiki-page loop.  A failed read lands in the
`except` branch, which stores the `'[could not read]'` placeholder. -/
def wikiStep (read : String → Option String) (published_hrefs : List String)
    (item_states : List (String × String)) (st : WikiState) (page_path : String) : WikiState :=
  let page_name := wikiNameOf page_path
  if !(wikiPublishedDecision published_hrefs item_states page_path) then
    { st with wiki_unpublished := st.wiki_unpublished ++ [page_name],
              wiki_unpub := st.wiki_unpub + 1 }
  else
    let st1 := { st with wiki_pub := st.wiki_pub + 1 }
    if is_media_page page_name then
      { st1 with wiki_titles := st1.wiki_titles ++ [page_name] }
    else
      match read page_path with
      | some raw =>
        let clean := pyStripS (strip_html raw)
        if clean == "" then st1
        else { st1 with wiki_full := dictInsert st1.wiki_full page_name clean }
      | none => { st1 with wiki_full := dictInsert st1.wiki_full page_name "[could not read]" }

/-- The whole wiki-page loop. -/
def processWiki (read : String → Option String) (files : List String)
    (published_hrefs : List String) (item_states : List (String × String)) : WikiState :=
  (files.filter isWikiFile).foldl (wikiStep read published_hrefs item_states) ⟨[], [], [], 0, 0⟩

/-- `AssignmentRecord` fields (analyze.py:330-336). -/
structure AssignmentInfo where
  instructions : String
  due_date : String
  points : String
  sub_type : String
  folder_id : String
deriving Repr, DecidableEq

/-- State of the assignment loop (analyze.py:273-341). -/
structure AssignState where
  assignments : List (String × AssignmentInfo)
  assignments_unpub : List String
  assign_pub : Nat
  assign_unpub : Nat
deriving Repr, DecidableEq

/-- The assignment-file filter of analyze.py:273-280. -/
def isAssignFile (f : String) : Bool :=
  pyEndsWith ".html" f && !pyStartsWith "wiki_content/" f
    && !pyStartsWith "web_resources/" f && !pyContains "syllabus" (lowerS f)
    && pyContains "/" f

/-- Fields read from `assignment_settings.xml` (analyze.py:293-317),
starting from the defaults and overwritten tag by tag. -/
structure AssignSettings where
  published : Bool
  due_date : String
  points : String
  sub_type : String
  clean_name : String
deriving Repr, DecidableEq

/-- Parse `assignment_settings.xml` (analyze.py:300-317). -/
def parseAssignSettings (xml : String) (defaultName : String) : AssignSettings :=
  let published :=
    match findTagS "workflow_state" xml with
    | some s => is_published_state s
    | none => true
  let due :=
    match findTagS "due_at" xml with
    | some s => format_due_date (pyStripS s)
    | none => "Not set"
  let pts :=
    match findTagS "points_possible" xml with
    | some s => pyStripS s
    | none => "Not specified"
  let sub :=
    match findTagS "submission_types" xml with
    | some s => pyStripS (strip_html s)
    | none => "Not specified"
  let name :=
    match findTagS "title" xml with
    | some s => pyStripS (strip_html s)
    | none => defaultName
  ⟨published, due, pts, sub, name⟩

/-- `path.split('/')[0]`. -/
def folderOf (path : String) : String := String.mk ((splitOnChar '/' path.data).headD [])

/-- `path.split('/')[-1]`. -/
def fileNameOf (path : String) : String := String.mk ((splitOnChar '/' path.data).getLastD [])

/-- One iteration of the assignment loop.  The whole body sits in a
`try` whose `except` is `pass`: a failed read leaves the state
unchanged (entry skipped). -/
def assignStep (read : String → Option String) (files : List String)
    (st : AssignState) (assign_path : String) : AssignState :=
  let folder_id := folderOf assign_path
  let file_name := fileNameOf assign_path
  let settings_path := folder_id ++ "/assignment_settings.xml"
  let defaultName := clean_assignment_name folder_id file_name
  let settings? : Option AssignSettings :=
    if files.contains settings_path then
      (read settings_path).map (fun xml => parseAssignSettings xml defaultName)
    else some ⟨true, "Not set", "Not specified", "Not specified", defaultName⟩
  match settings? with
  | none => st
  | some s =>
    if !s.published then
      { st with assignments_unpub := st.assignments_unpub ++ [s.clean_name],
                assign_unpub := st.assign_unpub + 1 }
    else
      match read assign_path with
      | none => st
      | some raw =>
        let instructions := pyStripS (strip_html raw)
        if instructions == "" then st
        else
          { st with
            assignments := dictInsert st.assignments s.clean_name
              ⟨instructions, s.due_date, s.points, s.sub_type, folder_id⟩,
            assign_pub := st.assign_pub + 1 }

/-- The whole assignment loop. -/
def processAssign (read : String → Option String) (files : List String) : AssignState :=
  (files.filter isAssignFile).foldl (assignStep read files) ⟨[], [], 0, 0⟩

/-- State of the assessment loop (analyze.py:344-374). -/
structure AssessState where
  assessments : List (String × String)
  assess_pub : Nat
  assess_unpub : Nat
deriving Repr, DecidableEq

/-- One iteration of the assessment loop (same skip-on-failure `try`
as assignments; `split('/')[-2]` raising on a path without enough
components is likewise caught). -/
def assessStep (read : String → Option String) (files : List String)
    (st : AssessState) (assess_path : String) : AssessState :=
  let parts := splitOnChar '/' assess_path.data
  let folder_id := folderOf assess_path
  let settings_path := folder_id ++ "/assessment_meta.xml"
  let published? : Option Bool :=
    if files.contains settings_path then
      (read settings_path).map (fun xml =>
        match findTagS "workflow_state" xml with
        | some s => is_published_state s
        | none => true)
    else some true
  match published? with
  | none => st
  | some published =>
    if !published then { st with assess_unpub := st.assess_unpub + 1 }
    else
      match read assess_path with
      | none => st
      | some raw =>
        let clean := pyStripS (strip_html raw)
        if parts.length < 2 then st
        else
          let name := String.mk ((parts.drop (parts.length - 2)).headD [])
          if clean == "" then st
          else
            { st with
              assessments := dictInsert st.assessments name (String.mk (clean.data.take 2000)),
              assess_pub := st.assess_pub + 1 }

/-- The whole assessment loop (only the first fifteen QTI files). -/
def processAssess (read : String → Option String) (files : List String) : AssessState :=
  ((files.filter (fun f => pyContains "assessment_qti.xml" f)).take 15).foldl
    (assessStep read files) ⟨[], 0, 0⟩

/-- The `publish_stats` summary dict (analyze.py:377-384). -/
structure PublishStats where
  wiki_published : Nat
  wiki_unpublished : Nat
  assign_published : Nat
  assign_unpublished : Nat
  assess_published : Nat
  assess_unpublished : Nat
deriving Repr, DecidableEq

/-- The `CourseRecord` assembled by `read_imscc`. -/
structure CourseRecord where
  file_name : String
  all_files : List String
  syllabus_text : String
  course_settings : String
  assignment_groups : String
  module_meta : String
  rubrics : String
  manifest : String
  wiki_full : List (String × String)
  wiki_titles : List String
  wiki_unpublished : List String
  assignments : List (String × AssignmentInfo)
  assignments_unpub : List String
  assessments : List (String × String)
  lti_tools : List String
  publish_stats : PublishStats
deriving Repr, DecidableEq

/-- A settings-file read (analyze.py:207-215).  These reads are NOT
inside a `try`: a failure here propagates out of `read_imscc`. -/
def readSetting (read : String → Option String) (files : List String) (path : String) :
    Option String :=
  if files.contains path then read path else some ""

/-- `read_imscc` (analyze.py:169-386), restricted to the data flow:
settings reads (failures propagate), publish-state resolution, and the
three per-entry loops (failures skipped per entry). -/
def read_imscc (file_name : String) (files : List String) (read : String → Option String)
    (syllabus_text : String) : Option CourseRecord :=
  match readSetting read files "course_settings/course_settings.xml",
        readSetting read files "course_settings/assignment_groups.xml",
        readSetting read files "course_settings/module_meta.xml",
        readSetting read files "course_settings/rubrics.xml",
        readSetting read files "imsmanifest.xml" with
  | some cs, some ag, some mm, some rb, some mf =>
    let r := build_published_file_set mm mf
    let w := processWiki read files r.1 r.2.1
    let a := processAssign read files
    let q := processAssess read files
    some
      { file_name := file_name, all_files := files,
        syllabus_text := pyStripS syllabus_text,
        course_settings := cs, assignment_groups := ag, module_meta := mm,
        rubrics := rb, manifest := mf,
        wiki_full := w.wiki_full, wiki_titles := w.wiki_titles,
        wiki_unpublished := w.wiki_unpublished,
        assignments := a.assignments, assignments_unpub := a.assignments_unpub,
        assessments := q.assessments, lti_tools := [],
        publish_stats :=
          ⟨w.wiki_pub, w.wiki_unpub, a.assign_pub, a.assign_unpub, q.assess_pub, q.assess_unpub⟩ }
  | _, _, _, _, _ => none

/- ────────────────────────────────────────────────────────────
   extract_grading_structure (analyze.py, lines 492-509)
   ──────────────────────────────────────────────────────────── -/

structure GradeGroup where
  name : String
  weight : String
  position : String
deriving Repr, DecidableEq

/-- Decimal value of a digit list. -/
def natOfDigits (l : List Char) : Nat := l.foldl (fun n c => 10 * n + digitVal c) 0

/-- Exponent suffix `([eE][+-]?digits)?` of a Python float literal. -/
def parseExpDigits (base : ℚ) (neg : Bool) (l : List Char) : Option ℚ :=
  if l.isEmpty || !(l.all Char.isDigit) then none
  else
    let e := natOfDigits l
    some (if neg then base / ((10 : ℚ) ^ e) else base * ((10 : ℚ) ^ e))

/-- Dispatch on the optional exponent part. -/
def parseExpPart (base : ℚ) : List Char → Option ℚ
  | [] => some base
  | c :: r =>
    if c == 'e' || c == 'E' then
      match r with
      | '+' :: r2 => parseExpDigits base false r2
      | '-' :: r2 => parseExpDigits base true r2
      | r2 => parseExpDigits base false r2
    else none

/-- Unsigned part of a Python float literal:
`digits [. digits?] | . digits`, then optional exponent. -/
def parseUnsignedFloat (l : List Char) : Option ℚ :=
  let intPart := l.takeWhile Char.isDigit
  let r1 := l.drop intPart.length
  match r1 with
  | [] => if intPart.isEmpty then none else some (natOfDigits intPart : ℚ)
  | '.' :: r2 =>
    let fracPart := r2.takeWhile Char.isDigit
    if intPart.isEmpty && fracPart.isEmpty then none
    else
      parseExpPart
        ((natOfDigits intPart : ℚ) + (natOfDigits fracPart : ℚ) / ((10 : ℚ) ^ fracPart.length))
        (r2.drop fracPart.length)
  | _ =>
    if intPart.isEmpty then none else parseExpPart (natOfDigits intPart : ℚ) r1

/-- `float(s)` for already-stripped text, as an exact rational.
(Python additionally accepts underscore separators and inf/nan, which
assignment-group weights never use.) -/
def pyFloat? (s : String) : Option ℚ :=
  match s.data with
  | '+' :: r => parseUnsignedFloat r
  | '-' :: r => (parseUnsignedFloat r).map (fun q => -q)
  | r => parseUnsignedFloat r

/-- Round to the nearest integer, ties to even (IEEE-754 rounding used
by `'{:.1f}'.format`; the double's representation error is approximated
by exact rational arithmetic here). -/
def roundHalfEvenNum (q : ℚ) : ℤ :=
  let f := ⌊q⌋
  if q - f < 1 / 2 then f
  else if 1 / 2 < q - f then f + 1
  else if f % 2 == 0 then f else f + 1

/-- `f"{x:.1f}"`. -/
def formatFloat1 (q : ℚ) : String :=
  let neg := q < 0
  let m := (roundHalfEvenNum ((if neg then -q else q) * 10)).toNat
  (if neg then "-" else "") ++ toString (m / 10) ++ "." ++ toString (m % 10)

/-- One `<assignmentGroup ...>` block (analyze.py:497-507). -/
def gradeGroupOfBlock (block : List Char) : GradeGroup :=
  let name :=
    match findTag "title" block with
    | some t => pyStripS (strip_html (String.mk t))
    | none => "Unnamed"
  let pos :=
    match findTag "position" block with
    | some p => pyStripS (String.mk p)
    | none => "?"
  let weight :=
    match findTag "group_weight" block with
    | some w =>
      let ws := pyStripS (String.mk w)
      match pyFloat? ws with
      | some q => formatFloat1 q
      | none => ws
    | none => "0.0"
  ⟨name, weight, pos⟩

/-- Python `str.isdigit`, ASCII fragment. -/
def isDigitStr (s : String) : Bool := !s.data.isEmpty && s.data.all Char.isDigit

/-- The sort key of analyze.py:508:
`int(g['position']) if g['position'].isdigit() else 99`. -/
def gradeSortKey (g : GradeGroup) : Nat :=
  if isDigitStr g.position then natOfDigits g.position.data else 99

/-- Stable insertion: `x` goes after every element of key ≤ its own. -/
def insKey (x : GradeGroup) : List GradeGroup → List GradeGroup
  | [] => [x]
  | y :: r => if gradeSortKey y ≤ gradeSortKey x then y :: insKey x r else x :: y :: r

/-- Stable sort by `gradeSortKey` (the behaviour of Python's stable
`list.sort(key=...)`). -/
def sortGroups (l : List GradeGroup) : List GradeGroup :=
  l.foldl (fun acc x => insKey x acc) []

/-- `extract_grading_structure` (analyze.py:492-509), taking the
`assignment_groups` XML text (`data['assignment_groups']`) directly. -/
def extract_grading_structure (xml : String) : List GradeGroup :=
  if xml == "" then []
  else sortGroups ((splitOnPat (patIdLen "<assignmentGroup".data) xml.data).map gradeGroupOfBlock)

/- ────────────────────────────────────────────────────────────
   _classify_obj_type (analyze.py, lines 531-570)
   ──────────────────────────────────────────────────────────── -/

/-- Continuations of `[-\s]?\d*\b` after the three-letter abbreviation
of `\b(clo|mlo)[-\s]?\d*\b` (the word boundary forces either consuming
every following digit and stopping before a non-word character, or a
separator followed by a word character). -/
def afterAbbr (r : List Char) : Bool :=
  (match r.dropWhile Char.isDigit with
   | [] => true
   | c :: _ => !isWordChar c) ||
  (match r with
   | c :: d :: _ => (c == '-' || isPySpace c) && isWordChar d
   | _ => false)

/-- Match `w₁.w₂.…` (each `.` one non-newline character) at the head. -/
def dotLit : List (List Char) → List Char → Bool
  | [], _ => true
  | [w], l => isPre w l
  | w :: ws, l =>
    isPre w l &&
      (match l.drop w.length with
       | c :: r => c != '\n' && dotLit ws r
       | [] => false)

/-- Search for `\bABBR[-\s]?\d*\b` or any of the dotted phrases; the
flag records whether the previous character was a non-word character
(so a word boundary precedes the current position). -/
def searchAbbrPhrases (abbr : List Char) (phrases : List (List (List Char))) :
    Bool → List Char → Bool
  | _, [] => false
  | prevNW, c :: rest =>
    (prevNW && isPre abbr (c :: rest) && afterAbbr ((c :: rest).drop abbr.length)) ||
    phrases.any (fun ph => dotLit ph (c :: rest)) ||
    searchAbbrPhrases abbr phrases (!isWordChar c) rest

/-- `re.search(r'\bclo[-\s]?\d*\b|course.level.objective|course.learning.objective', ·)`. -/
def cloPattern (l : List Char) : Bool :=
  searchAbbrPhrases "clo".data
    [["course".data, "level".data, "objective".data],
     ["course".data, "learning".data, "objective".data]] true l

/-- `re.search(r'\bmlo[-\s]?\d*\b|module.level.objective|module.learning.objective|module.objective', ·)`. -/
def mloPattern (l : List Char) : Bool :=
  searchAbbrPhrases "mlo".data
    [["module".data, "level".data, "objective".data],
     ["module".data, "learning".data, "objective".data],
     ["module".data, "objective".data]] true l

/-- Consume `\s+` (at least one whitespace char, maximal run). -/
def wsPlus (l : List Char) : Option (List Char) :=
  let w := l.takeWhile isPySpace
  if w.isEmpty then none else some (l.drop w.length)

/-- Consume a literal. -/
def litThen (w l : List Char) : Option (List Char) :=
  if isPre w l then some (l.drop w.length) else none

/-- Consume `LIT\s+`. -/
def afterLitWs (w l : List Char) : Option (List Char) :=
  match litThen w l with
  | some r => wsPlus r
  | none => none

/-- Consume `by\s+the\s+end\s+of\s+`. -/
def byEndPrefix (l : List Char) : Option (List Char) :=
  match afterLitWs "by".data l with
  | none => none
  | some r1 =>
    match afterLitWs "the".data r1 with
    | none => none
    | some r2 =>
      match afterLitWs "end".data r2 with
      | none => none
      | some r3 => afterLitWs "of".data r3

/-- Both continuations of an optional `(?:W\s+)?` group. -/
def optWordWs (w l : List Char) : List (List Char) :=
  match afterLitWs w l with
  | some r => [l, r]
  | none => [l]

/-- Match `by\s+the\s+end\s+of\s+(?:this\s+)?(?:the\s+)?course` at the head. -/
def matchByEndCourseAt (l : List Char) : Bool :=
  match byEndPrefix l with
  | none => false
  | some r =>
    (optWordWs "this".data r).any (fun r2 =>
      (optWordWs "the".data r2).any (fun r3 => isPre "course".data r3))

/-- Match `by\s+the\s+end\s+of\s+(?:this\s+)?(?:module|week|unit|lesson)` at the head. -/
def matchByEndModuleAt (l : List Char) : Bool :=
  match byEndPrefix l with
  | none => false
  | some r =>
    (optWordWs "this".data r).any (fun r2 =>
      isPre "module".data r2 || isPre "week".data r2
        || isPre "unit".data r2 || isPre "lesson".data r2)

/-- `re.search`: try the head matcher at every position. -/
def searchAt (p : List Char → Bool) : List Char → Bool
  | [] => p []
  | c :: rest => p (c :: rest) || searchAt p rest

/-- Match `W[-\s]?\d` at the head. -/
def wordSepDigitAt (w l : List Char) : Bool :=
  isPre w l &&
    (match l.drop w.length with
     | c :: r2 =>
       c.isDigit
         || ((c == '-' || isPySpace c) && (match r2 with | d :: _ => d.isDigit | [] => false))
     | [] => false)

/-- `re.search(r'module[-\s]?\d|week[-\s]?\d|unit[-\s]?\d|\bmod[-\s]?\d', ·)`. -/
def modSrcPattern : Bool → List Char → Bool
  | _, [] => false
  | prevNW, c :: rest =>
    wordSepDigitAt "module".data (c :: rest) || wordSepDigitAt "week".data (c :: rest)
      || wordSepDigitAt "unit".data (c :: rest)
      || (prevNW && wordSepDigitAt "mod".data (c :: rest))
      || modSrcPattern (!isWordChar c) rest

/-- `CLO_PAGE_KEYS` (analyze.py:558-560). -/
def CLO_PAGE_KEYS : List String :=
  ["syllabus", "course-info", "course-overview", "welcome",
   "introduction", "getting-started", "start-here",
   "outcomes", "goals", "course-objectives"]

/-- `_classify_obj_type` (analyze.py:531-570): CLO / MLO / unknown,
first matching rule wins. -/
def classify_obj_type (source_label text : String) : String :=
  let src := lowerS source_label
  let txt := lowerS text
  let combined := (txt ++ " " ++ src).data
  if cloPattern combined then "CLO"
  else if mloPattern combined then "MLO"
  else if src == "[syllabus]" then "CLO"
  else if searchAt matchByEndCourseAt txt.data then "CLO"
  else if searchAt matchByEndModuleAt txt.data then "MLO"
  else if CLO_PAGE_KEYS.any (fun k => pyContains k src) then "CLO"
  else if modSrcPattern true src.data then "MLO"
  else if pyStartsWith "[assignment]" src then "MLO"
  else "unknown"

/- ────────────────────────────────────────────────────────────
   _fuzzy_match and compare_objectives (analyze.py, lines 676-816)
   ──────────────────────────────────────────────────────────── -/

/-- `STOPWORDS` (analyze.py:681-683). -/
def STOPWORDS : List String :=
  ["the", "a", "an", "and", "or", "to", "of", "in", "for", "is", "are",
   "will", "be", "able", "that", "this", "their", "its", "by", "at",
   "students", "you", "learners", "participants", "course", "module"]

/-- Maximal runs of word characters (`acc` holds the current run
reversed). -/
def wordRunsAux : List Char → List Char → List (List Char)
  | acc, [] => match acc with | [] => [] | _ :: _ => [acc.reverse]
  | acc, c :: rest =>
    if isWordChar c then wordRunsAux (c :: acc) rest
    else
      match acc with
      | [] => wordRunsAux [] rest
      | _ :: _ => acc.reverse :: wordRunsAux [] rest

/-- The token set of `_fuzzy_match`'s `words`:
`set(re.findall(r'\b[a-z]{3,}\b', t.lower())) - STOPWORDS`.  A match of
`\b[a-z]{3,}\b` is exactly a maximal `\w` run of the lowercased text
that consists purely of `[a-z]` and has length at least 3. -/
def fuzzyWords (t : String) : Finset String :=
  (((wordRunsAux [] (t.data.map Char.toLower)).filter
      (fun r => 3 ≤ r.length && r.all isLowerAZ)).map String.mk).toFinset \ STOPWORDS.toFinset

/-- `_fuzzy_match` (analyze.py:676-691) at the default threshold
`0.55 = 11/20` (float arithmetic modelled by exact rationals). -/
def fuzzy_match (text_a text_b : String) : Bool :=
  let wa := fuzzyWords text_a
  let wb := fuzzyWords text_b
  if wa = ∅ ∨ wb = ∅ then false
  else decide ((11 : ℚ) / 20 ≤ ((wa ∩ wb).card : ℚ) / (min wa.card wb.card : ℚ))

/-- An extracted objective (the dicts of analyze.py:636-641). -/
structure Objective where
  text : String
  blooms : String
  source : String
  obj_type : String
  module_num : Option Nat
deriving Repr, DecidableEq

instance : Inhabited Objective := ⟨⟨"", "", "", "", none⟩⟩

/-- `ComparisonResult` (analyze.py:812-816). -/
structure ComparisonResult where
  matched : List (Objective × Objective)
  course_only : List Objective
  syllabus_only : List Objective
deriving Repr, DecidableEq

/-- The inner loop of `compare_objectives`: the first syllabus index
not yet used whose text fuzzy-matches the course objective. -/
def findFirstMatch (c : Objective) (syl : List Objective) (used : List Nat) : Option Nat :=
  (List.range syl.length).find?
    (fun i => !used.contains i && fuzzy_match c.text (syl.getD i default).text)

/-- The outer loop of `compare_objectives`, threading the
`used_syl_idx` set (embedded as the list of added indices). -/
def compareLoop (syl : List Objective) :
    List Objective → List Nat → List (Objective × Objective) × List Objective × List Nat
  | [], used => ([], [], used)
  | c :: cs, used =>
    match findFirstMatch c syl used with
    | some i =>
      let r := compareLoop syl cs (i :: used)
      ((c, syl.getD i default) :: r.1, r.2.1, r.2.2)
    | none =>
      let r := compareLoop syl cs used
      (r.1, c :: r.2.1, r.2.2)

/-- `compare_objectives` (analyze.py:779-816). -/
def compare_objectives (course_objectives syllabus_objectives : List Objective) :
    ComparisonResult :=
  let r := compareLoop syllabus_objectives course_objectives []
  { matched := r.1
    course_only := r.2.1
    syllabus_only :=
      ((List.range syllabus_objectives.length).filter (fun i => !r.2.2.contains i)).map
        (fun i => syllabus_objectives.getD i default) }

/- ────────────────────────────────────────────────────────────
   calculate_health_score (analyze.py, lines 972-984)
   ──────────────────────────────────────────────────────────── -/

/-- Count of `✅`-prefixed statuses among the QM results' values. -/
def qmMet (qm : List (String × String)) : Nat :=
  qm.countP (fun v => pyStartsWith "✅" v.1)

/-- Count of `⚠️`-prefixed statuses. -/
def qmPartial (qm : List (String × String)) : Nat :=
  qm.countP (fun v => pyStartsWith "⚠️" v.1)

/-- Count of `❌`-prefixed statuses. -/
def qmNotMet (qm : List (String × String)) : Nat :=
  qm.countP (fun v => pyStartsWith "❌" v.1)

/-- Count of `🔍`-prefixed statuses. -/
def qmReview (qm : List (String × String)) : Nat :=
  qm.countP (fun v => pyStartsWith "🔍" v.1)

def passRecommendation : String :=
  "PASS — This course is in strong shape. Targeted refinements only."

def reviewRecommendation : String :=
  "REVIEW — Good foundation with targeted areas to improve."

def redesignRecommendation : String :=
  "REDESIGN — Significant alignment and design work recommended."

/-- `calculate_health_score` (analyze.py:972-984), on the list of
`(status, note)` values of the QM results map.  The source's float
comparisons `met >= total*0.75` and `met >= total*0.5` are exact
(0.75 and 0.5 are binary-representable), hence `4*met ≥ 3*total`
and `2*met ≥ total`. -/
def calculate_health_score (qm_results : List (String × String)) :
    Nat × Nat × Nat × Nat × String :=
  let met := qmMet qm_results
  let partialCt := qmPartial qm_results
  let not_met := qmNotMet qm_results
  let review := qmReview qm_results
  let total := qm_results.length
  let recommendation :=
    if 3 * total ≤ 4 * met ∧ not_met = 0 then passRecommendation
    else if not_met ≤ 2 ∧ total ≤ 2 * met then reviewRecommendation
    else redesignRecommendation
  (met, partialCt, not_met, review, recommendation)

/- ────────────────────────────────────────────────────────────
   Claim C2 — the publish predicate
   ──────────────────────────────────────────────────────────── -/

/-- **C2.** For every workflow-state string whose lowercased and
trimmed form is `"active"`, `"published"`, or the empty string,
`is_published_state` returns `true`; for every string whose lowercased
and trimmed form is `"unpublished"` or `"draft"`, it returns `false`. -/
theorem C2_publish_predicate :
    (∀ s : String,
      pyStripS (lowerS s) = "active" ∨ pyStripS (lowerS s) = "published"
        ∨ pyStripS (lowerS s) = "" →
      is_published_state s = true) ∧
    (∀ s : String,
      pyStripS (lowerS s) = "unpublished" ∨ pyStripS (lowerS s) = "draft" →
      is_published_state s = false) := by
  constructor
  · intro s h
    simp only [is_published_state]
    rcases h with h | h | h <;> rw [h] <;> decide
  · intro s h
    simp only [is_published_state]
    rcases h with h | h <;> rw [h] <;> decide

/-- Witness for C2 at `"  ACTIVE "` and `"Draft"`. -/
theorem C2_publish_predicate_witness :
    (pyStripS (lowerS "  ACTIVE ") = "active" ∧ is_published_state "  ACTIVE " = true) ∧
    (pyStripS (lowerS "Draft") = "draft" ∧ is_published_state "Draft" = false) :=
  ⟨⟨by decide, C2_publish_predicate.1 "  ACTIVE " (Or.inl (by decide))⟩,
   ⟨by decide, C2_publish_predicate.2 "Draft" (Or.inr (by decide))⟩⟩

/- ────────────────────────────────────────────────────────────
   Claim C7 — health-score recommendation tiers
   ──────────────────────────────────────────────────────────── -/

/-- The recommendation component of `calculate_health_score`. -/
lemma health_recommendation (qm : List (String × String)) :
    (calculate_health_score qm).2.2.2.2 =
      if 3 * qm.length ≤ 4 * qmMet qm ∧ qmNotMet qm = 0 then passRecommendation
      else if qmNotMet qm ≤ 2 ∧ qm.length ≤ 2 * qmMet qm then reviewRecommendation
      else redesignRecommendation := rfl

/-- The concrete scenario of C7: 13 standards, 10 Met, 1 Partially
Met, 2 Not Met, 0 Needs Review. -/
def qm13example : List (String × String) :=
  List.replicate 10 ("✅ Met", "ok") ++ [("⚠️ Partially Met", "p")]
    ++ List.replicate 2 ("❌ Not Met", "n")

/-- **C7.** The recommendation tiers are evaluated in order over the QM
results only: PASS iff Met ≥ 75 % of the total and Not-Met = 0;
otherwise REVIEW iff Not-Met ≤ 2 and Met ≥ 50 %; otherwise REDESIGN
(the float thresholds 0.75 and 0.5 are exact, so `met ≥ total*0.75` is
`4*met ≥ 3*total` and `met ≥ total*0.5` is `2*met ≥ total`).  In
particular the 13-standard scenario with 10 Met, 1 Partially Met,
2 Not Met yields REVIEW, not PASS. -/
theorem C7_health_tiers :
    (∀ qm : List (String × String),
      ((calculate_health_score qm).2.2.2.2 = passRecommendation ↔
        3 * qm.length ≤ 4 * qmMet qm ∧ qmNotMet qm = 0) ∧
      ((calculate_health_score qm).2.2.2.2 = reviewRecommendation ↔
        ¬(3 * qm.length ≤ 4 * qmMet qm ∧ qmNotMet qm = 0) ∧
          qmNotMet qm ≤ 2 ∧ qm.length ≤ 2 * qmMet qm) ∧
      ((calculate_health_score qm).2.2.2.2 = redesignRecommendation ↔
        ¬(3 * qm.length ≤ 4 * qmMet qm ∧ qmNotMet qm = 0) ∧
          ¬(qmNotMet qm ≤ 2 ∧ qm.length ≤ 2 * qmMet qm))) ∧
    (calculate_health_score qm13example).2.2.2.2 = reviewRecommendation := by
  constructor
  · intro qm
    by_cases h1 : 3 * qm.length ≤ 4 * qmMet qm ∧ qmNotMet qm = 0
    · have e : (calculate_health_score qm).2.2.2.2 = passRecommendation := by
        rw [health_recommendation, if_pos h1]
      exact ⟨⟨fun _ => h1, fun _ => e⟩,
        iff_of_false (by rw [e]; decide) (fun hc => hc.1 h1),
        iff_of_false (by rw [e]; decide) (fun hc => hc.1 h1)⟩
    · by_cases h2 : qmNotMet qm ≤ 2 ∧ qm.length ≤ 2 * qmMet qm
      · have e : (calculate_health_score qm).2.2.2.2 = reviewRecommendation := by
          rw [health_recommendation, if_neg h1, if_pos h2]
        exact ⟨iff_of_false (by rw [e]; decide) h1,
          iff_of_true e ⟨h1, h2⟩,
          iff_of_false (by rw [e]; decide) (fun hc => hc.2 h2)⟩
      · have e : (calculate_health_score qm).2.2.2.2 = redesignRecommendation := by
          rw [health_recommendation, if_neg h1, if_neg h2]
        exact ⟨iff_of_false (by rw [e]; decide) h1,
          iff_of_false (by rw [e]; decide) (fun hc => h2 hc.2),
          iff_of_true e ⟨h1, h2⟩⟩
  · decide

/- ────────────────────────────────────────────────────────────
   Claim C10 — totality of the fuzzy matcher
   ──────────────────────────────────────────────────────────── -/

/-- **C10.** `_fuzzy_match` returns `false` whenever either filtered
token set is empty, before the overlap ratio (and hence the division
by the minimum set size) is ever evaluated; in particular two
identical texts made only of stopwords or words shorter than three
letters do not match. -/
theorem C10_fuzzy_totality :
    (∀ a b : String, fuzzyWords a = ∅ ∨ fuzzyWords b = ∅ → fuzzy_match a b = false) ∧
    fuzzy_match "the and of" "the and of" = false := by
  constructor
  · intro a b h
    simp only [fuzzy_match]
    rw [if_pos h]
  · decide

/-- Witness for C10 at the stopword-only text `"to be or"`. -/
theorem C10_fuzzy_totality_witness :
    fuzzyWords "to be or" = ∅ ∧
    fuzzy_match "to be or" "analyze primary sources" = false :=
  ⟨by decide,
   C10_fuzzy_totality.1 "to be or" "analyze primary sources" (Or.inl (by decide))⟩

/- ────────────────────────────────────────────────────────────
   Claim C9 — grading-group sort order
   ──────────────────────────────────────────────────────────── -/

/-- Assignment-group XML with a numeric position above the sentinel
key 99 next to a non-numeric position. -/
def xmlC9 : String :=
  "<assignmentGroup identifier=g1><title>Alpha</title><position>100</position><assignmentGroup identifier=g2><title>Beta</title><position>x</position>"

/-- **C9 counterexample.**  The group with the non-numeric position
`"x"` (sort key 99) is ordered *before* the group with the numeric
position `"100"`, so non-numeric positions do not sort after every
numeric position. -/
theorem C9_counterexample :
    extract_grading_structure xmlC9 =
      [⟨"Beta", "0.0", "x"⟩, ⟨"Alpha", "0.0", "100"⟩] ∧
    isDigitStr "100" = true ∧ isDigitStr "x" = false := by decide

/-- Membership in a stable insertion. -/
lemma insKey_mem {x y : GradeGroup} : ∀ {l : List GradeGroup},
    y ∈ insKey x l → y = x ∨ y ∈ l := by
  intro l
  induction l with
  | nil => intro h; simp [insKey] at h; exact Or.inl h
  | cons z r ih =>
    intro h
    simp only [insKey] at h
    by_cases hk : gradeSortKey z ≤ gradeSortKey x
    · rw [if_pos hk] at h
      rcases List.mem_cons.mp h with h | h
      · exact Or.inr (List.mem_cons.mpr (Or.inl h))
      · rcases ih h with h | h
        · exact Or.inl h
        · exact Or.inr (List.mem_cons.mpr (Or.inr h))
    · rw [if_neg hk] at h
      rcases List.mem_cons.mp h with h | h
      · exact Or.inl h
      · exact Or.inr h

/-- Stable insertion preserves sortedness by `gradeSortKey`. -/
lemma insKey_pairwise {x : GradeGroup} : ∀ {l : List GradeGroup},
    List.Pairwise (fun a b => gradeSortKey a ≤ gradeSortKey b) l →
    List.Pairwise (fun a b => gradeSortKey a ≤ gradeSortKey b) (insKey x l) := by
  intro l
  induction l with
  | nil => intro _; simp [insKey]
  | cons z r ih =>
    intro h
    rcases List.pairwise_cons.mp h with ⟨hz, hr⟩
    simp only [insKey]
    by_cases hk : gradeSortKey z ≤ gradeSortKey x
    · rw [if_pos hk]
      refine List.pairwise_cons.mpr ⟨?_, ih hr⟩
      intro y hy
      rcases insKey_mem hy with rfl | hy
      · exact hk
      · exact hz y hy
    · rw [if_neg hk]
      refine List.pairwise_cons.mpr ⟨?_, h⟩
      intro y hy
      rcases List.mem_cons.mp hy with rfl | hy
      · exact Nat.le_of_lt (Nat.lt_of_not_le hk)
      · exact Nat.le_trans (Nat.le_of_lt (Nat.lt_of_not_le hk)) (hz y hy)

/-- The insertion-sort fold keeps the accumulator sorted. -/
lemma sortGroups_fold_pairwise (l : List GradeGroup) :
    ∀ acc, List.Pairwise (fun a b => gradeSortKey a ≤ gradeSortKey b) acc →
      List.Pairwise (fun a b => gradeSortKey a ≤ gradeSortKey b)
        (l.foldl (fun a x => insKey x a) acc) := by
  induction l with
  | nil => intro acc h; exact h
  | cons x r ih => intro acc h; exact ih (insKey x acc) (insKey_pairwise h)

/-- **C9 (amended).**  `extract_grading_structure` returns the groups
stably sorted by the key `int(position)` when the position is all
digits and the sentinel 99 otherwise; hence non-numeric positions sort
after numeric positions below 99 but *before* numeric positions above
99. -/
theorem C9_sorted_by_key (xml : String) :
    List.Pairwise (fun a b => gradeSortKey a ≤ gradeSortKey b)
      (extract_grading_structure xml) := by
  simp only [extract_grading_structure]
  by_cases h : xml == ""
  · rw [if_pos h]; exact List.Pairwise.nil
  · rw [if_neg h]
    exact sortGroups_fold_pairwise _ [] List.Pairwise.nil

/- ────────────────────────────────────────────────────────────
   Claim C4 — syllabus-sourced objectives
   ──────────────────────────────────────────────────────────── -/

/-- **C4 counterexample.**  An objective sourced from `"[Syllabus]"`
whose text carries an explicit MLO marker is classified `MLO`, not
`CLO`: the explicit-label rule precedes the syllabus-source rule. -/
theorem C4_counterexample :
    classify_obj_type "[Syllabus]" "mlo 1: explain the basics of chemistry" = "MLO" := by
  decide

/-- **C4 (amended).**  An objective sourced from `"[Syllabus]"` is
classified `CLO` provided the explicit-MLO pattern does not match the
combined lowercased text and label (the one exception the
counterexample forces; an explicit CLO marker in the text still yields
`CLO`). -/
theorem C4_syllabus_clo (text : String)
    (h : mloPattern ((lowerS text ++ " " ++ "[syllabus]").data) = false) :
    classify_obj_type "[Syllabus]" text = "CLO" := by
  have hsrc : lowerS "[Syllabus]" = "[syllabus]" := by decide
  simp only [classify_obj_type, hsrc, h]
  simp

/-- Witness for C4 (amended) at a marker-free text. -/
theorem C4_syllabus_clo_witness :
    mloPattern ((lowerS "Explain the basics of chemistry" ++ " " ++ "[syllabus]").data) = false ∧
    classify_obj_type "[Syllabus]" "Explain the basics of chemistry" = "CLO" :=
  ⟨by decide, C4_syllabus_clo "Explain the basics of chemistry" (by decide)⟩

/- ────────────────────────────────────────────────────────────
   Claim C1 — empty item-state map ⇒ fallback-publish everything
   ──────────────────────────────────────────────────────────── -/

/-- With an empty `item_states` map the wiki publish decision is
always `true` (the fallback branch of analyze.py:247-249). -/
lemma wikiPublishedDecision_empty (ph : List String) (p : String) :
    wikiPublishedDecision ph [] p = true := by
  simp [wikiPublishedDecision]

/-- A published page never lands in the unpublished bucket. -/
lemma wikiStep_unpub_of_pub (read : String → Option String) (ph : List String)
    (states : List (String × String)) (st : WikiState) (p : String)
    (h : wikiPublishedDecision ph states p = true) :
    (wikiStep read ph states st p).wiki_unpublished = st.wiki_unpublished := by
  simp only [wikiStep, h, Bool.not_true, Bool.false_eq_true, if_false]
  split
  · rfl
  · split
    · split <;> rfl
    · rfl

/-- With an empty `item_states` map the wiki loop leaves the
unpublished bucket untouched. -/
lemma processWiki_fold_unpub_empty (read : String → Option String) (ph : List String) :
    ∀ (fs : List String) (st : WikiState),
      (fs.foldl (wikiStep read ph []) st).wiki_unpublished = st.wiki_unpublished := by
  intro fs
  induction fs with
  | nil => intro st; rfl
  | cons p r ih =>
    intro st
    rw [List.foldl_cons, ih, wikiStep_unpub_of_pub]
    exact wikiPublishedDecision_empty ph p

/-- **C1.** When the module-metadata text yields no item blocks, the
resolver's `itemStates` map is empty (and so is the published set),
`read_imscc`'s wiki loop puts no page in the unpublished bucket, and
every wiki page passes the publish decision (so every non-media wiki
page reaches the content-analysis branch). -/
theorem C1_fallback_published (module_meta manifest : String)
    (files : List String) (read : String → Option String)
    (h : splitOnPat (patIdLen "<item".data) module_meta.data = []) :
    (build_published_file_set module_meta manifest).2.1 = [] ∧
    (build_published_file_set module_meta manifest).1 = [] ∧
    (processWiki read files (build_published_file_set module_meta manifest).1
      (build_published_file_set module_meta manifest).2.1).wiki_unpublished = [] ∧
    ∀ p ∈ files.filter isWikiFile,
      wikiPublishedDecision (build_published_file_set module_meta manifest).1
        (build_published_file_set module_meta manifest).2.1 p = true := by
  have hstates : itemStatesOf module_meta.data = [] := by
    simp [itemStatesOf, itemEntries, h]
  have hstates2 : (build_published_file_set module_meta manifest).2.1 = [] := by
    simp [build_published_file_set, hstates]
  have hph : (build_published_file_set module_meta manifest).1 = [] := by
    simp [build_published_file_set, publishedHrefsOf, hstates]
  refine ⟨hstates2, hph, ?_, ?_⟩
  · rw [hstates2]
    simp only [processWiki]
    rw [processWiki_fold_unpub_empty]
  · intro p _
    rw [hstates2]
    exact wikiPublishedDecision_empty _ p

/-- An archive listing used by the C1 witness. -/
def filesC1 : List String := ["imsmanifest.xml", "wiki_content/page-one.html", "other.txt"]

/-- Witness for C1: empty module metadata, one wiki page. -/
theorem C1_fallback_published_witness :
    splitOnPat (patIdLen "<item".data) "".data = [] ∧
    (build_published_file_set "" "").2.1 = [] ∧
    (build_published_file_set "" "").1 = [] ∧
    (processWiki (fun _ => some "<p>hi</p>") filesC1 (build_published_file_set "" "").1
      (build_published_file_set "" "").2.1).wiki_unpublished = [] ∧
    wikiPublishedDecision (build_published_file_set "" "").1
      (build_published_file_set "" "").2.1 "wiki_content/page-one.html" = true :=
  ⟨by decide,
   (C1_fallback_published "" "" filesC1 (fun _ => some "<p>hi</p>") (by decide)).1,
   (C1_fallback_published "" "" filesC1 (fun _ => some "<p>hi</p>") (by decide)).2.1,
   (C1_fallback_published "" "" filesC1 (fun _ => some "<p>hi</p>") (by decide)).2.2.1,
   (C1_fallback_published "" "" filesC1 (fun _ => some "<p>hi</p>") (by decide)).2.2.2
     "wiki_content/page-one.html" (by decide)⟩

/- ────────────────────────────────────────────────────────────
   Claim C3 — most-permissive-wins merge of duplicate ids
   ──────────────────────────────────────────────────────────── -/

/-- Lookup after a keyed in-place update (the map branch of
`dictInsert`). -/
lemma lookup_map_update {α : Type} (key : String) (v : α) (k : String) :
    ∀ m : List (String × α),
      pyLookup k (m.map (fun p => if p.1 == key then (key, v) else p)) =
        if k = key then (if (pyLookup key m).isSome then some v else none)
        else pyLookup k m := by
  intro m
  induction m with
  | nil => simp [pyLookup]
  | cons p rest ih =>
    by_cases hp : p.1 = key <;> by_cases hk : k = key
    · simp_all [pyLookup]
    · have hks : ¬key = k := fun h => hk h.symm
      simp_all [pyLookup]
    · simp_all [pyLookup]
    · simp_all [pyLookup]

/-- Lookup after an append of a fresh key (the append branch of
`dictInsert`). -/
lemma lookup_append_fresh {α : Type} (key : String) (v : α) (k : String) :
    ∀ m : List (String × α), pyLookup key m = none →
      pyLookup k (m ++ [(key, v)]) = if k = key then some v else pyLookup k m := by
  intro m
  induction m with
  | nil =>
    intro _
    by_cases hk : k = key
    · simp [pyLookup, hk]
    · simp [pyLookup, hk, show ¬key = k from fun h => hk h.symm]
  | cons p rest ih =>
    intro h0
    have h1 : ¬p.1 = key := by
      intro hc
      simp [pyLookup, hc] at h0
    have h2 : pyLookup key rest = none := by
      simpa [pyLookup, h1] using h0
    by_cases hk2 : p.1 = k
    · have hk : ¬k = key := fun h => h1 (hk2.trans h)
      simp [pyLookup, hk2, hk]
    · simp [pyLookup, hk2, ih h2]

/-- Lookup through a Python-dict assignment. -/
lemma dictInsert_lookup {α : Type} (m : List (String × α)) (key : String) (v : α) (k : String) :
    pyLookup k (dictInsert m key v) = if k = key then some v else pyLookup k m := by
  simp only [dictInsert]
  by_cases hs : (pyLookup key m).isSome
  · rw [if_pos hs, lookup_map_update key v k m, if_pos hs]
  · rw [if_neg hs]
    exact lookup_append_fresh key v k m (Option.not_isSome_iff_eq_none.mp hs)

/-- Lookup through one step of the resolver's merge. -/
lemma insertItemState_lookup (m : List (String × String)) (e : String × String) (k : String) :
    pyLookup k (insertItemState m e) =
      if k = e.1 then
        (if ((pyLookup e.1 m).isNone || is_published_state e.2) = true then some e.2
         else pyLookup k m)
      else pyLookup k m := by
  simp only [insertItemState]
  by_cases hc : ((pyLookup e.1 m).isNone || is_published_state e.2) = true
  · rw [if_pos hc, dictInsert_lookup]
    by_cases hk : k = e.1
    · rw [if_pos hk, if_pos hk, if_pos hc]
    · rw [if_neg hk, if_neg hk]
  · rw [if_neg hc]
    by_cases hk : k = e.1
    · rw [if_pos hk, if_neg hc]
    · rw [if_neg hk]

/-- Per-key view of the resolver's merge: the surviving state for a
key is a fold over exactly that key's occurrences, in order. -/
def resolveKey (o : Option String) (ss : List String) : Option String :=
  ss.foldl (fun acc s => if (acc.isNone || is_published_state s) = true then some s else acc) o

/-- The merge fold, projected to a single key. -/
lemma itemStates_fold_lookup (es : List (String × String)) :
    ∀ (m : List (String × String)) (k : String),
      pyLookup k (es.foldl insertItemState m) =
        resolveKey (pyLookup k m) ((es.filter (fun e => e.1 == k)).map Prod.snd) := by
  induction es with
  | nil => intro m k; rfl
  | cons e rest ih =>
    intro m k
    rw [List.foldl_cons, ih]
    by_cases he : e.1 = k
    · have hf : (e :: rest).filter (fun e => e.1 == k) = e :: rest.filter (fun e => e.1 == k) := by
        simp [List.filter_cons, he]
      rw [hf, List.map_cons]
      have hstep : pyLookup k (insertItemState m e) =
          if ((pyLookup k m).isNone || is_published_state e.2) = true then some e.2
          else pyLookup k m := by
        rw [insertItemState_lookup, if_pos he.symm, he]
      rw [hstep]
      rfl
    · have he' : ¬k = e.1 := fun hh => he hh.symm
      have hf : (e :: rest).filter (fun e => e.1 == k) = rest.filter (fun e => e.1 == k) := by
        simp [List.filter_cons, he]
      rw [hf, insertItemState_lookup, if_neg he']

/-- Folding the per-key states from a recorded first occurrence always
yields a recorded state, published iff some occurrence is published. -/
lemma resolveKey_from_some (ss : List String) :
    ∀ s0 : String, ∃ out, resolveKey (some s0) ss = some out ∧
      (is_published_state out = true ↔
        is_published_state s0 = true ∨ ∃ s ∈ ss, is_published_state s = true) := by
  induction ss with
  | nil =>
    intro s0
    exact ⟨s0, rfl, by simp⟩
  | cons s rest ih =>
    intro s0
    by_cases hp : is_published_state s = true
    · obtain ⟨out, e, hiff⟩ := ih s
      refine ⟨out, ?_, ?_⟩
      · rw [show resolveKey (some s0) (s :: rest) = resolveKey (some s) rest by
          simp [resolveKey, hp]]
        exact e
      · exact ⟨fun _ => Or.inr ⟨s, List.mem_cons_self s rest, hp⟩,
          fun _ => hiff.mpr (Or.inl hp)⟩
    · obtain ⟨out, e, hiff⟩ := ih s0
      refine ⟨out, ?_, ?_⟩
      · rw [show resolveKey (some s0) (s :: rest) = resolveKey (some s0) rest by
          simp [resolveKey, hp]]
        exact e
      · rw [hiff]
        constructor
        · rintro (h0 | ⟨x, hx, hpx⟩)
          · exact Or.inl h0
          · exact Or.inr ⟨x, List.mem_cons.mpr (Or.inr hx), hpx⟩
        · rintro (h0 | ⟨x, hx, hpx⟩)
          · exact Or.inl h0
          · rcases List.mem_cons.mp hx with rfl | hx
            · exact absurd hpx hp
            · exact Or.inr ⟨x, hx, hpx⟩

/-- **C3.** For every reference id occurring in more than one item
block, the state finally recorded in `itemStates` passes the publish
predicate iff at least one of the id's occurrences passes it
(most-permissive-wins; the right-hand side is independent of the order
of the occurrences). -/
theorem C3_most_permissive (module_meta : String) (ref : String)
    (h : 2 ≤ ((itemEntries module_meta.data).filter (fun e => e.1 == ref)).length) :
    ∃ s, pyLookup ref (itemStatesOf module_meta.data) = some s ∧
      (is_published_state s = true ↔
        ∃ e ∈ itemEntries module_meta.data, e.1 = ref ∧ is_published_state e.2 = true) := by
  have hlk : pyLookup ref (itemStatesOf module_meta.data) =
      resolveKey none
        (((itemEntries module_meta.data).filter (fun e => e.1 == ref)).map Prod.snd) := by
    simpa [itemStatesOf] using itemStates_fold_lookup (itemEntries module_meta.data) [] ref
  obtain ⟨e0, rest, hfe⟩ :
      ∃ e0 rest, (itemEntries module_meta.data).filter (fun e => e.1 == ref) = e0 :: rest := by
    rcases hh : (itemEntries module_meta.data).filter (fun e => e.1 == ref) with _ | ⟨e0, rest⟩
    · rw [hh] at h; simp at h
    · exact ⟨e0, rest, hh⟩
  rw [hfe, List.map_cons] at hlk
  have hlk2 : pyLookup ref (itemStatesOf module_meta.data) =
      resolveKey (some e0.2) (rest.map Prod.snd) := by
    rw [hlk]; simp [resolveKey]
  obtain ⟨out, e, hiff⟩ := resolveKey_from_some (rest.map Prod.snd) e0.2
  refine ⟨out, by rw [hlk2, e], ?_⟩
  rw [hiff]
  have hmem : ∀ x, x ∈ e0 :: rest ↔
      x ∈ itemEntries module_meta.data ∧ x.1 = ref := by
    intro x
    rw [← hfe, List.mem_filter]
    simp
  constructor
  · rintro (h0 | ⟨x, hx, hpx⟩)
    · obtain ⟨hm, hr⟩ := (hmem e0).mp (List.mem_cons_self e0 rest)
      exact ⟨e0, hm, hr, h0⟩
    · obtain ⟨y, hy, rfl⟩ := List.mem_map.mp hx
      obtain ⟨hm, hr⟩ := (hmem y).mp (List.mem_cons.mpr (Or.inr hy))
      exact ⟨y, hm, hr, hpx⟩
  · rintro ⟨x, hm, hr, hpx⟩
    have hx : x ∈ e0 :: rest := (hmem x).mpr ⟨hm, hr⟩
    rcases List.mem_cons.mp hx with rfl | hx
    · exact Or.inl hpx
    · exact Or.inr ⟨x.2, List.mem_map.mpr ⟨x, hx, rfl⟩, hpx⟩

/-- Module metadata with the same `identifierref` in two item blocks,
first unpublished then active. -/
def metaC3 : String :=
  "<item identifier=a><identifierref>r1</identifierref><workflow_state>unpublished</workflow_state><item identifier=b><identifierref>r1</identifierref><workflow_state>active</workflow_state>"

/-- Witness for C3 at a duplicate id whose occurrences are
`unpublished` then `active`. -/
theorem C3_most_permissive_witness :
    2 ≤ ((itemEntries metaC3.data).filter (fun e => e.1 == "r1")).length ∧
    pyLookup "r1" (itemStatesOf metaC3.data) = some "active" ∧
    (∃ s, pyLookup "r1" (itemStatesOf metaC3.data) = some s ∧
      (is_published_state s = true ↔
        ∃ e ∈ itemEntries metaC3.data, e.1 = "r1" ∧ is_published_state e.2 = true)) :=
  ⟨by decide, by decide, C3_most_permissive metaC3 "r1" (by decide)⟩

/- ────────────────────────────────────────────────────────────
   Claim C6 — compare_objectives partitions exhaustively/disjointly
   ──────────────────────────────────────────────────────────── -/

/-- A found syllabus index is in range and fresh. -/
lemma findFirstMatch_lt_not_mem {c : Objective} {syl : List Objective} {used : List Nat}
    {i : Nat} (h : findFirstMatch c syl used = some i) : i < syl.length ∧ i ∉ used := by
  constructor
  · exact List.mem_range.mp (List.mem_of_find?_eq_some h)
  · have hp := List.find?_some h
    simp only [Bool.and_eq_true] at hp
    simpa using hp.1

/-- Course-side partition: matched course halves plus course-only is a
permutation of the course list. -/
lemma compareLoop_course_perm (syl : List Objective) :
    ∀ (cs : List Objective) (used : List Nat),
      ((compareLoop syl cs used).1.map Prod.fst
        ++ (compareLoop syl cs used).2.1).Perm cs := by
  intro cs
  induction cs with
  | nil => intro used; simp [compareLoop]
  | cons c cs ih =>
    intro used
    rcases hm : findFirstMatch c syl used with _ | i
    · have he : compareLoop syl (c :: cs) used =
          ((compareLoop syl cs used).1, c :: (compareLoop syl cs used).2.1,
            (compareLoop syl cs used).2.2) := by
        simp [compareLoop, hm]
      rw [he]
      exact List.Perm.trans List.perm_middle (List.Perm.cons c (ih used))
    · have he : compareLoop syl (c :: cs) used =
          ((c, syl.getD i default) :: (compareLoop syl cs (i :: used)).1,
            (compareLoop syl cs (i :: used)).2.1, (compareLoop syl cs (i :: used)).2.2) := by
        simp [compareLoop, hm]
      rw [he]
      simp only [List.map_cons, List.cons_append]
      exact List.Perm.cons c (ih (i :: used))

/-- The loop's used set is exactly the matched indices (in reverse
match order) on top of the initial set; matched syllabus halves are
those indices' objectives; the new indices are distinct, in range and
fresh. -/
lemma compareLoop_used_spec (syl : List Objective) :
    ∀ (cs : List Objective) (used : List Nat),
      ∃ idxs : List Nat,
        (compareLoop syl cs used).2.2 = idxs.reverse ++ used ∧
        (compareLoop syl cs used).1.map Prod.snd =
          idxs.map (fun i => syl.getD i default) ∧
        idxs.Nodup ∧ (∀ i ∈ idxs, i < syl.length ∧ i ∉ used) := by
  intro cs
  induction cs with
  | nil =>
    intro used
    exact ⟨[], by simp [compareLoop], by simp [compareLoop], List.nodup_nil, by simp⟩
  | cons c cs ih =>
    intro used
    rcases hm : findFirstMatch c syl used with _ | i
    · obtain ⟨idxs, h1, h2, h3, h4⟩ := ih used
      have he : compareLoop syl (c :: cs) used =
          ((compareLoop syl cs used).1, c :: (compareLoop syl cs used).2.1,
            (compareLoop syl cs used).2.2) := by
        simp [compareLoop, hm]
      exact ⟨idxs, by rw [he]; exact h1, by rw [he]; exact h2, h3, h4⟩
    · obtain ⟨hi1, hi2⟩ := findFirstMatch_lt_not_mem hm
      obtain ⟨idxs, h1, h2, h3, h4⟩ := ih (i :: used)
      have he : compareLoop syl (c :: cs) used =
          ((c, syl.getD i default) :: (compareLoop syl cs (i :: used)).1,
            (compareLoop syl cs (i :: used)).2.1, (compareLoop syl cs (i :: used)).2.2) := by
        simp [compareLoop, hm]
      refine ⟨i :: idxs, ?_, ?_, ?_, ?_⟩
      · rw [he]
        simp only [List.reverse_cons, List.append_assoc, List.singleton_append]
        exact h1
      · rw [he]
        simp only [List.map_cons]
        rw [h2]
      · exact List.nodup_cons.mpr
          ⟨fun hmem => (h4 i hmem).2 (List.mem_cons_self i used), h3⟩
      · intro j hj
        rcases List.mem_cons.mp hj with rfl | hj
        · exact ⟨hi1, hi2⟩
        · exact ⟨(h4 j hj).1, fun hju => (h4 j hj).2 (List.mem_cons.mpr (Or.inr hju))⟩

/-- Indexing the whole range reproduces the list. -/
lemma range_map_getD : ∀ l : List Objective,
    (List.range l.length).map (fun i => l.getD i default) = l := by
  intro l
  induction l with
  | nil => simp
  | cons a l ih =>
    rw [List.length_cons, List.range_succ_eq_map, List.map_cons, List.map_map]
    have hfun : ((fun i => (a :: l).getD i default) ∘ Nat.succ) =
        (fun i => l.getD i default) := by
      funext i
      rfl
    rw [hfun, ih]
    rfl

/-- Distinct in-range indices plus the remaining range is a
permutation of the range. -/
lemma idxs_filter_perm (n : Nat) (idxs : List Nat) (h3 : idxs.Nodup)
    (hb : ∀ i ∈ idxs, i < n) :
    (idxs ++ (List.range n).filter (fun i => !idxs.contains i)).Perm (List.range n) := by
  have hnd : (idxs ++ (List.range n).filter (fun i => !idxs.contains i)).Nodup := by
    apply List.nodup_append.mpr
    refine ⟨h3, List.Nodup.filter _ (List.nodup_range n), ?_⟩
    intro a ha hf
    have hq := (List.mem_filter.mp hf).2
    simp only [Bool.not_eq_true'] at hq
    exact absurd ha (by simpa using hq)
  apply (List.perm_ext_iff_of_nodup hnd (List.nodup_range n)).mpr
  intro a
  simp only [List.mem_append, List.mem_filter, List.mem_range]
  constructor
  · rintro (ha | ⟨ha, _⟩)
    · exact hb a ha
    · exact ha
  · intro ha
    by_cases hm : a ∈ idxs
    · exact Or.inl hm
    · exact Or.inr ⟨ha, by simpa using hm⟩

/-- **C6.** `compare_objectives` partitions both inputs exhaustively
and disjointly: the matched course halves together with `course_only`
are a permutation of the course list, the matched syllabus halves
together with `syllabus_only` are a permutation of the syllabus list
(each objective occurrence lands in exactly one partition), and hence
`|matched| + |courseOnly| = |courseObjectives|` and
`|matched| + |syllabusOnly| = |syllabusObjectives|`. -/
theorem C6_partition (course syl : List Objective) :
    ((compare_objectives course syl).matched.map Prod.fst
        ++ (compare_objectives course syl).course_only).Perm course ∧
    ((compare_objectives course syl).matched.map Prod.snd
        ++ (compare_objectives course syl).syllabus_only).Perm syl ∧
    (compare_objectives course syl).matched.length
        + (compare_objectives course syl).course_only.length = course.length ∧
    (compare_objectives course syl).matched.length
        + (compare_objectives course syl).syllabus_only.length = syl.length := by
  have hc : ((compare_objectives course syl).matched.map Prod.fst
      ++ (compare_objectives course syl).course_only).Perm course := by
    simpa [compare_objectives] using compareLoop_course_perm syl course []
  obtain ⟨idxs, h1, h2, h3, h4⟩ := compareLoop_used_spec syl course []
  have hb : ∀ i ∈ idxs, i < syl.length := fun i hi => (h4 i hi).1
  have hs : ((compare_objectives course syl).matched.map Prod.snd
      ++ (compare_objectives course syl).syllabus_only).Perm syl := by
    have hcont : ∀ x : Nat, ((idxs.reverse ++ []).contains x) = (idxs.contains x) := by
      intro x
      by_cases hx : x ∈ idxs <;> simp [hx]
    have hfil : (compare_objectives course syl).syllabus_only =
        ((List.range syl.length).filter (fun i => !idxs.contains i)).map
          (fun i => syl.getD i default) := by
      simp only [compare_objectives]
      congr 1
      apply List.filter_congr
      intro x _
      rw [h1, hcont x]
    have hmat : (compare_objectives course syl).matched.map Prod.snd =
        idxs.map (fun i => syl.getD i default) := by
      simpa [compare_objectives] using h2
    rw [hfil, hmat, ← List.map_append]
    have hperm := List.Perm.map (fun i => syl.getD i default)
      (idxs_filter_perm syl.length idxs h3 hb)
    rw [range_map_getD syl] at hperm
    exact hperm
  refine ⟨hc, hs, ?_, ?_⟩
  · simpa [List.length_append, List.length_map] using hc.length_eq
  · simpa [List.length_append, List.length_map] using hs.length_eq

/- ────────────────────────────────────────────────────────────
   Claim C8 — per-entry failure handling in read_imscc
   ──────────────────────────────────────────────────────────── -/

/-- **C8 counterexample.**  A wiki page whose read fails is *not*
excluded from the analyzed content: the `except` branch stores it in
`wiki_full` under the placeholder `'[could not read]'`. -/
theorem C8_counterexample :
    (processWiki (fun _ => none) ["wiki_content/page-one.html"] [] []).wiki_full =
      [("page-one", "[could not read]")] := by decide

/-- **C8 (amended).**  Per-entry read failures never abort the archive
read: a failed assignment read (of the settings file, or of the
instruction HTML whether or not a settings file exists) leaves the
assignment state unchanged (the entry is skipped), likewise for
assessments; a failed *wiki* read keeps the entry, storing the
`'[could not read]'` placeholder; and `read_imscc` returns a record
whenever the five settings reads (the only uncaught ones) succeed. -/
theorem C8_per_entry_skip :
    (∀ (read : String → Option String) (files : List String) (st : AssignState) (p : String),
      (folderOf p ++ "/assignment_settings.xml") ∈ files →
      read (folderOf p ++ "/assignment_settings.xml") = none →
      assignStep read files st p = st) ∧
    (∀ (read : String → Option String) (files : List String) (st : AssignState) (p : String),
      (folderOf p ++ "/assignment_settings.xml") ∉ files →
      read p = none →
      assignStep read files st p = st) ∧
    (∀ (read : String → Option String) (files : List String) (st : AssignState)
        (p xml : String),
      (folderOf p ++ "/assignment_settings.xml") ∈ files →
      read (folderOf p ++ "/assignment_settings.xml") = some xml →
      (parseAssignSettings xml (clean_assignment_name (folderOf p) (fileNameOf p))).published
        = true →
      read p = none →
      assignStep read files st p = st) ∧
    (∀ (read : String → Option String) (files : List String) (st : AssessState) (p : String),
      (folderOf p ++ "/assessment_meta.xml") ∈ files →
      read (folderOf p ++ "/assessment_meta.xml") = none →
      assessStep read files st p = st) ∧
    (∀ (read : String → Option String) (files : List String) (st : AssessState) (p : String),
      (folderOf p ++ "/assessment_meta.xml") ∉ files →
      read p = none →
      assessStep read files st p = st) ∧
    (∀ (read : String → Option String) (files : List String) (st : AssessState)
        (p xml : String),
      (folderOf p ++ "/assessment_meta.xml") ∈ files →
      read (folderOf p ++ "/assessment_meta.xml") = some xml →
      (match findTagS "workflow_state" xml with
       | some s => is_published_state s
       | none => true) = true →
      read p = none →
      assessStep read files st p = st) ∧
    (∀ (read : String → Option String) (ph : List String)
        (states : List (String × String)) (st : WikiState) (p : String),
      wikiPublishedDecision ph states p = true →
      is_media_page (wikiNameOf p) = false →
      read p = none →
      wikiStep read ph states st p =
        { st with wiki_pub := st.wiki_pub + 1,
                  wiki_full := dictInsert st.wiki_full (wikiNameOf p) "[could not read]" }) ∧
    (∀ (file_name : String) (files : List String) (read : String → Option String)
        (syl : String),
      (∀ pth ∈ ["course_settings/course_settings.xml",
                "course_settings/assignment_groups.xml",
                "course_settings/module_meta.xml",
                "course_settings/rubrics.xml", "imsmanifest.xml"],
        pth ∈ files → read pth ≠ none) →
      read_imscc file_name files read syl ≠ none) := by
  refine ⟨?_, ?_, ?_, ?_, ?_, ?_, ?_, ?_⟩
  · intro read files st p h1 h2
    simp [assignStep, h1, h2]
  · intro read files st p h1 h2
    simp [assignStep, h1, h2]
  · intro read files st p xml h1 h2 h3 h4
    simp [assignStep, h1, h2, h3, h4]
  · intro read files st p h1 h2
    simp [assessStep, h1, h2]
  · intro read files st p h1 h2
    simp [assessStep, h1, h2]
  · intro read files st p xml h1 h2 h3 h4
    simp [assessStep, h1, h2, h3, h4]
  · intro read ph states st p hdec hmedia hread
    simp [wikiStep, hdec, hmedia, hread]
  · intro file_name files read syl h
    have hval : ∀ pth ∈ ["course_settings/course_settings.xml",
        "course_settings/assignment_groups.xml", "course_settings/module_meta.xml",
        "course_settings/rubrics.xml", "imsmanifest.xml"],
        ∃ v, readSetting read files pth = some v := by
      intro pth hm
      by_cases hc : pth ∈ files
      · obtain ⟨v, hv⟩ := Option.ne_none_iff_exists.mp (h pth hm hc)
        exact ⟨v, by simp [readSetting, hc, ← hv]⟩
      · exact ⟨"", by simp [readSetting, hc]⟩
    obtain ⟨v1, e1⟩ := hval "course_settings/course_settings.xml" (by simp)
    obtain ⟨v2, e2⟩ := hval "course_settings/assignment_groups.xml" (by simp)
    obtain ⟨v3, e3⟩ := hval "course_settings/module_meta.xml" (by simp)
    obtain ⟨v4, e4⟩ := hval "course_settings/rubrics.xml" (by simp)
    obtain ⟨v5, e5⟩ := hval "imsmanifest.xml" (by simp)
    simp [read_imscc, e1, e2, e3, e4, e5]

/-- Witness for C8 (amended): each skip/placeholder behaviour at a
concrete archive. -/
theorem C8_per_entry_skip_witness :
    assignStep (fun _ => none) ["a1/assignment_settings.xml"] ⟨[], [], 0, 0⟩ "a1/hw.html"
      = ⟨[], [], 0, 0⟩ ∧
    assignStep (fun _ => none) [] ⟨[], [], 0, 0⟩ "a1/hw.html" = ⟨[], [], 0, 0⟩ ∧
    assignStep
      (fun q => if q = "a1/assignment_settings.xml"
        then some "<workflow_state>active</workflow_state>" else none)
      ["a1/assignment_settings.xml"] ⟨[], [], 0, 0⟩ "a1/hw.html" = ⟨[], [], 0, 0⟩ ∧
    assessStep (fun _ => none) ["q1/assessment_meta.xml"] ⟨[], 0, 0⟩ "q1/assessment_qti.xml"
      = ⟨[], 0, 0⟩ ∧
    assessStep (fun _ => none) [] ⟨[], 0, 0⟩ "q1/assessment_qti.xml" = ⟨[], 0, 0⟩ ∧
    assessStep
      (fun q => if q = "q1/assessment_meta.xml"
        then some "<workflow_state>active</workflow_state>" else none)
      ["q1/assessment_meta.xml"] ⟨[], 0, 0⟩ "q1/assessment_qti.xml" = ⟨[], 0, 0⟩ ∧
    wikiStep (fun _ => none) [] [] ⟨[], [], [], 0, 0⟩ "wiki_content/pg.html" =
      ⟨[("pg", "[could not read]")], [], [], 1, 0⟩ ∧
    read_imscc "x" [] (fun _ => none) "" ≠ none := by
  refine ⟨?_, ?_, ?_, ?_, ?_, ?_, ?_, ?_⟩
  · exact C8_per_entry_skip.1 _ _ _ _ (by decide) rfl
  · exact C8_per_entry_skip.2.1 _ _ _ _ (by decide) rfl
  · exact C8_per_entry_skip.2.2.1 _ _ _ "a1/hw.html"
      "<workflow_state>active</workflow_state>" (by decide) (by decide) (by decide) (by decide)
  · exact C8_per_entry_skip.2.2.2.1 _ _ _ _ (by decide) rfl
  · exact C8_per_entry_skip.2.2.2.2.1 _ _ _ _ (by decide) rfl
  · exact C8_per_entry_skip.2.2.2.2.2.1 _ _ _ "q1/assessment_qti.xml"
      "<workflow_state>active</workflow_state>" (by decide) (by decide) (by decide) (by decide)
  · rw [C8_per_entry_skip.2.2.2.2.2.2.1 _ _ _ _ _ (by decide) (by decide) rfl]
    decide
  · exact C8_per_entry_skip.2.2.2.2.2.2.2 _ _ _ _ (fun pth _ hc => by simp at hc)

/- ────────────────────────────────────────────────────────────
   Claim C5 — idempotence of strip_html
   ──────────────────────────────────────────────────────────── -/

/-- **C5 counterexample.**  `strip_html` is not idempotent: decoding
`&lt;b&gt;` produces the literal tag `<b>`, which a second pass
replaces by a space and strips away. -/
theorem C5_counterexample :
    strip_html (strip_html "&lt;b&gt;") ≠ strip_html "&lt;b&gt;" := by decide

/-- Every whitespace character is a plain space. -/
def WsOnlySpace (l : List Char) : Prop := ∀ c ∈ l, isPySpace c = true → c = ' '

/-- No two adjacent whitespace characters. -/
def NoAdjSpace : List Char → Prop
  | [] => True
  | [_] => True
  | a :: b :: r => ¬(isPySpace a = true ∧ isPySpace b = true) ∧ NoAdjSpace (b :: r)

/-- The head, if any, is not whitespace. -/
def HeadNotSpace (l : List Char) : Prop := ∀ c cs, l = c :: cs → isPySpace c = false

/-- The last character, if any, is not whitespace. -/
def LastNotSpace (l : List Char) : Prop := ∀ c, l.getLast? = some c → isPySpace c = false

lemma noAdj_tail {a : Char} {l : List Char} (h : NoAdjSpace (a :: l)) : NoAdjSpace l := by
  cases l with
  | nil => trivial
  | cons b r => exact h.2

lemma collapseAux_wsOnly : ∀ (l : List Char) (b : Bool), WsOnlySpace (collapseAux b l) := by
  intro l
  induction l with
  | nil => intro b c hc; simp [collapseAux] at hc
  | cons a rest ih =>
    intro b c hc hsp
    by_cases ha : isPySpace a = true
    · cases b with
      | false =>
        simp only [collapseAux, ha, if_true, if_false, Bool.false_eq_true] at hc
        rcases List.mem_cons.mp hc with rfl | hc
        · rfl
        · exact ih true c hc hsp
      | true =>
        simp only [collapseAux, ha, if_true] at hc
        exact ih true c hc hsp
    · simp only [collapseAux, ha, if_false] at hc
      rcases List.mem_cons.mp hc with rfl | hc
      · exact absurd hsp ha
      · exact ih false c hc hsp

lemma collapseAux_true_head : ∀ l : List Char, HeadNotSpace (collapseAux true l) := by
  intro l
  induction l with
  | nil => intro c cs h; simp [collapseAux] at h
  | cons a rest ih =>
    intro c cs h
    by_cases ha : isPySpace a = true
    · simp only [collapseAux, ha, if_true] at h
      exact ih c cs h
    · simp only [collapseAux, ha, if_false] at h
      injection h with h1 _
      rw [← h1]
      exact Bool.not_eq_true _ ▸ (by simpa using ha)

lemma collapseAux_noAdj : ∀ (l : List Char) (b : Bool), NoAdjSpace (collapseAux b l) := by
  intro l
  induction l with
  | nil => intro b; trivial
  | cons a rest ih =>
    intro b
    by_cases ha : isPySpace a = true
    · cases b with
      | true =>
        simp only [collapseAux, ha, if_true]
        exact ih true
      | false =>
        simp only [collapseAux, ha, if_true, Bool.false_eq_true, if_false]
        rcases e : collapseAux true rest with _ | ⟨d, ds⟩
        · trivial
        · refine ⟨fun hpair => ?_, ?_⟩
          · have hd := collapseAux_true_head rest d ds e
            rw [hpair.2] at hd
            exact Bool.true_eq_false ▸ hd.symm ▸ (by simp at hd)
          · have := ih true
            rw [e] at this
            exact this
    · simp only [collapseAux, ha, if_false]
      rcases e : collapseAux false rest with _ | ⟨d, ds⟩
      · trivial
      · refine ⟨fun hpair => absurd hpair.1 ha, ?_⟩
        have := ih false
        rw [e] at this
        exact this

lemma collapse_fixpoint : ∀ l : List Char, WsOnlySpace l → NoAdjSpace l →
    (collapseAux false l = l ∧ (HeadNotSpace l → collapseAux true l = l)) := by
  intro l
  induction l with
  | nil => intro _ _; exact ⟨rfl, fun _ => rfl⟩
  | cons a rest ih =>
    intro hws hna
    have hws' : WsOnlySpace rest := fun c hc => hws c (List.mem_cons.mpr (Or.inr hc))
    have hna' : NoAdjSpace rest := noAdj_tail hna
    by_cases ha : isPySpace a = true
    · have haeq : a = ' ' := hws a (List.mem_cons_self a rest) ha
      have hrest_head : HeadNotSpace rest := by
        intro d ds hd
        rw [hd] at hna
        by_contra hc
        simp only [Bool.not_eq_false] at hc
        exact hna.1 ⟨ha, hc⟩
      constructor
      · simp only [collapseAux, ha, if_true, Bool.false_eq_true, if_false]
        rw [(ih hws' hna').2 hrest_head, haeq]
      · intro hh
        exact absurd (hh a rest rfl) (by simp [ha])
    · have hfix := (ih hws' hna').1
      constructor
      · simp [collapseAux, ha, hfix]
      · intro _
        simp [collapseAux, ha, hfix]

lemma dts_pre : ∀ l : List Char, dropTrailingWs l <+: l := by
  intro l
  induction l with
  | nil => exact List.nil_prefix
  | cons c rest ih =>
    rcases e : dropTrailingWs rest with _ | ⟨d, ds⟩
    · simp only [dropTrailingWs, e]
      split
      · exact List.nil_prefix
      · exact ⟨rest, rfl⟩
    · simp only [dropTrailingWs, e]
      obtain ⟨t, ht⟩ := e ▸ ih
      exact ⟨t, by rw [← ht]; rfl⟩

lemma noAdj_append_left : ∀ (xs ys : List Char), NoAdjSpace (xs ++ ys) → NoAdjSpace xs := by
  intro xs ys
  induction xs with
  | nil => intro _; trivial
  | cons x xs' ih =>
    intro h
    cases xs' with
    | nil => trivial
    | cons y xs'' =>
      have h' : NoAdjSpace (x :: y :: (xs'' ++ ys)) := h
      exact ⟨h'.1, ih h'.2⟩

lemma noAdj_of_prefix {l₁ l : List Char} (hp : l₁ <+: l) (h : NoAdjSpace l) :
    NoAdjSpace l₁ := by
  obtain ⟨t, rfl⟩ := hp
  exact noAdj_append_left l₁ t h

lemma dts_last : ∀ l : List Char, LastNotSpace (dropTrailingWs l) := by
  intro l
  induction l with
  | nil => intro c h; simp [dropTrailingWs] at h
  | cons a rest ih =>
    intro c h
    rcases e : dropTrailingWs rest with _ | ⟨d, ds⟩
    · simp only [dropTrailingWs, e] at h
      split at h
      · simp at h
      · next ha =>
        simp only [List.getLast?_singleton, Option.some.injEq] at h
        rw [← h]
        simpa using ha
    · simp only [dropTrailingWs, e] at h
      rw [List.getLast?_cons_cons] at h
      exact ih c (e ▸ h)

lemma dts_fixpoint : ∀ l : List Char, LastNotSpace l → dropTrailingWs l = l := by
  intro l
  induction l with
  | nil => intro _; rfl
  | cons a rest ih =>
    intro h
    cases rest with
    | nil =>
      have ha : isPySpace a = false := h a rfl
      simp [dropTrailingWs, ha]
    | cons x r2 =>
      have h' : LastNotSpace (x :: r2) := by
        intro c hc
        exact h c (by rw [List.getLast?_cons_cons]; exact hc)
      have hx := ih h'
      rw [show dropTrailingWs (a :: x :: r2) =
          (match dropTrailingWs (x :: r2) with
           | [] => if isPySpace a = true then [] else [a]
           | d :: r => a :: d :: r) from rfl, hx]

lemma dts_head : ∀ (l : List Char) (c : Char) (cs : List Char),
    dropTrailingWs l = c :: cs → ∃ cs', l = c :: cs' := by
  intro l c cs h
  obtain ⟨t, ht⟩ := dts_pre l
  rw [h] at ht
  exact ⟨cs ++ t, by rw [← ht]; rfl⟩

lemma dropWhile_head_not : ∀ (l : List Char) (c : Char) (cs : List Char),
    l.dropWhile isPySpace = c :: cs → isPySpace c = false := by
  intro l
  induction l with
  | nil => intro c cs h; simp at h
  | cons a rest ih =>
    intro c cs h
    by_cases ha : isPySpace a = true
    · rw [List.dropWhile_cons, if_pos ha] at h
      exact ih c cs h
    · rw [List.dropWhile_cons, if_neg ha] at h
      injection h with h1 _
      rw [← h1]
      simpa using ha

lemma noAdj_dropWhile : ∀ l : List Char, NoAdjSpace l → NoAdjSpace (l.dropWhile isPySpace) := by
  intro l
  induction l with
  | nil => intro _; trivial
  | cons a rest ih =>
    intro h
    by_cases ha : isPySpace a = true
    · rw [List.dropWhile_cons, if_pos ha]
      exact ih (noAdj_tail h)
    · rw [List.dropWhile_cons, if_neg ha]
      exact h

lemma dropWhile_fixpoint {l : List Char} (h : HeadNotSpace l) :
    l.dropWhile isPySpace = l := by
  cases l with
  | nil => rfl
  | cons a rest =>
    rw [List.dropWhile_cons, if_neg (by simp [h a rest rfl])]

lemma pyStrip_props (l : List Char) (hws : WsOnlySpace l) (hna : NoAdjSpace l) :
    WsOnlySpace (pyStrip l) ∧ NoAdjSpace (pyStrip l) ∧
    HeadNotSpace (pyStrip l) ∧ LastNotSpace (pyStrip l) := by
  refine ⟨?_, ?_, ?_, ?_⟩
  · intro c hc hsp
    have h1 : c ∈ l.dropWhile isPySpace :=
      ((dts_pre _).sublist.subset) hc
    have h2 : c ∈ l := (List.dropWhile_sublist _).subset h1
    exact hws c h2 hsp
  · exact noAdj_of_prefix (dts_pre _) (noAdj_dropWhile l hna)
  · intro c cs h
    obtain ⟨cs', hcs'⟩ := dts_head _ c cs h
    exact dropWhile_head_not l c cs' hcs'
  · exact dts_last _

lemma pyStrip_fixpoint {l : List Char} (h1 : HeadNotSpace l) (h2 : LastNotSpace l) :
    pyStrip l = l := by
  rw [pyStrip, dropWhile_fixpoint h1, dts_fixpoint l h2]

lemma isPre_false_of_head_ne {a c : Char} (as rest : List Char) (h : c ≠ a) :
    isPre (a :: as) (c :: rest) = false := by
  have : (a == c) = false := beq_eq_false_iff_ne.mpr (Ne.symm h)
  simp [isPre, this]

lemma removeScriptStyle_id : ∀ l : List Char, '<' ∉ l → removeScriptStyle l = l := by
  intro l
  induction l with
  | nil => intro _; rfl
  | cons c rest ih =>
    intro h
    have hne : c ≠ '<' := fun he => h (he ▸ List.mem_cons_self c rest)
    have ho : openLen (c :: rest) = none := by
      simp only [openLen,
        show "<script".data = '<' :: "script".data from rfl,
        show "<style".data = '<' :: "style".data from rfl,
        isPre_false_of_head_ne _ _ hne]
      rfl
    have hm : matchSSLen (c :: rest) = none := by
      simp [matchSSLen, ho]
    have hrest : '<' ∉ rest := fun hr => h (List.mem_cons.mpr (Or.inr hr))
    simp only [removeScriptStyle, rssAux, hm]
    exact congrArg (c :: ·) (ih hrest)

lemma replaceTags_id : ∀ l : List Char, '<' ∉ l → replaceTags l = l := by
  intro l
  induction l with
  | nil => intro _; rfl
  | cons c rest ih =>
    intro h
    have hne : (c == '<') = false :=
      beq_eq_false_iff_ne.mpr (fun he => h (he ▸ List.mem_cons_self c rest))
    have ht : tagLen (c :: rest) = none := by
      simp [tagLen, hne]
    have hrest : '<' ∉ rest := fun hr => h (List.mem_cons.mpr (Or.inr hr))
    simp only [replaceTags, rtAux, ht]
    exact congrArg (c :: ·) (ih hrest)

lemma raAux_id (p : Char) (ps rep : List Char) :
    ∀ l : List Char, p ∉ l → raAux (p :: ps) rep 0 l = l := by
  intro l
  induction l with
  | nil => intro _; rfl
  | cons c rest ih =>
    intro h
    have hne : c ≠ p := fun he => h (he ▸ List.mem_cons_self c rest)
    have hpre : isPre (p :: ps) (c :: rest) = false := isPre_false_of_head_ne _ _ hne
    have hrest : p ∉ rest := fun hr => h (List.mem_cons.mpr (Or.inr hr))
    simp only [raAux, hpre, Bool.false_eq_true, if_false]
    exact congrArg (c :: ·) (ih hrest)

lemma decodeEntities_id (l : List Char) (h : '&' ∉ l) : decodeEntities l = l := by
  have h1 : replaceAll "&nbsp;".data " ".data l = l := by
    rw [replaceAll, show "&nbsp;".data = '&' :: "nbsp;".data from rfl]
    exact raAux_id '&' _ _ l h
  have h2 : replaceAll "&amp;".data "&".data l = l := by
    rw [replaceAll, show "&amp;".data = '&' :: "amp;".data from rfl]
    exact raAux_id '&' _ _ l h
  have h3 : replaceAll "&lt;".data "<".data l = l := by
    rw [replaceAll, show "&lt;".data = '&' :: "lt;".data from rfl]
    exact raAux_id '&' _ _ l h
  have h4 : replaceAll "&gt;".data ">".data l = l := by
    rw [replaceAll, show "&gt;".data = '&' :: "gt;".data from rfl]
    exact raAux_id '&' _ _ l h
  have h5 : replaceAll "&quot;".data "\"".data l = l := by
    rw [replaceAll, show "&quot;".data = '&' :: "quot;".data from rfl]
    exact raAux_id '&' _ _ l h
  have h6 : replaceAll "&#39;".data "\x27".data l = l := by
    rw [replaceAll, show "&#39;".data = '&' :: "#39;".data from rfl]
    exact raAux_id '&' _ _ l h
  simp only [decodeEntities, entityList, List.foldl_cons, List.foldl_nil]
  rw [h1, h2, h3, h4, h5, h6]

/-- **C5 (amended).**  `strip_html` is idempotent on every input whose
first-pass output contains neither `<` nor `&` (the markup-significant
characters the counterexample forces out: a decoded entity can form a
tag, or decode again, on the second pass). -/
theorem C5_idempotent_on_clean (s : String)
    (h1 : '<' ∉ (strip_html s).data) (h2 : '&' ∉ (strip_html s).data) :
    strip_html (strip_html s) = strip_html s := by
  obtain ⟨w1, w2, w3, w4⟩ :=
    pyStrip_props (collapseWs (decodeEntities (replaceTags (removeScriptStyle s.data))))
      (collapseAux_wsOnly _ false) (collapseAux_noAdj _ false)
  have hdata : (strip_html s).data =
      pyStrip (collapseWs (decodeEntities (replaceTags (removeScriptStyle s.data)))) := rfl
  rw [← hdata] at w1 w2 w3 w4
  have hstep : strip_html (strip_html s) = String.mk (pyStrip (collapseWs
      (decodeEntities (replaceTags (removeScriptStyle (strip_html s).data))))) := rfl
  rw [hstep, removeScriptStyle_id _ h1, replaceTags_id _ h1, decodeEntities_id _ h2,
    show collapseWs (strip_html s).data = collapseAux false (strip_html s).data from rfl,
    (collapse_fixpoint _ w1 w2).1, pyStrip_fixpoint w3 w4]

/-- Witness for C5 (amended) at text with collapsible whitespace and
no markup-significant characters. -/
theorem C5_idempotent_on_clean_witness :
    '<' ∉ (strip_html "  hello   world  ").data ∧
    '&' ∉ (strip_html "  hello   world  ").data ∧
    strip_html (strip_html "  hello   world  ") = strip_html "  hello   world  " :=
  ⟨by decide, by decide,
   C5_idempotent_on_clean "  hello   world  " (by decide) (by decide)⟩

end CeCe
